import Mathlib

/-!
Verification of the document ingestion and retrieval pipeline of the
Adelphos AI tutor repository: the search cache (`src/lib/search-cache.ts`),
the vector-store adapter (`src/lib/pinecone.ts`), chapter detection and the
database retry helper (`src/lib/file-processor.ts`, `src/lib/prisma.ts`),
the document-processing orchestrator (`src/app/api/materials/route.ts`,
`processDocumentAsync`), the vector upload scripts (`scripts/*.ts`) and the
chat route (`src/app/api/chat/route.ts`).

TypeScript is embedded shallowly: synchronous pure code becomes Lean
functions; each external call (database, embedding provider, LLM, vector
index) becomes a field of an environment record giving that call's outcome
as an `Except`; a JavaScript `Map` becomes an insertion-ordered association
list; thrown values become `JsError` records.
-/

/-- A JavaScript `Error` value as observed by the repository's catch blocks:
an optional provider error `code`, a `message`, and an optional HTTP
`status` field (used by the chat route's rate-limit classifier). -/
structure JsError where
  code : Option String
  message : String
  status : Option Nat
deriving DecidableEq, Repr

/-- One stored value of the search cache: the cached `results` payload plus
the `Date.now()` timestamp recorded by `SearchCache.set`
(`search-cache.ts`, interface `CacheEntry`). -/
structure CacheEntry (α : Type) where
  results : List α
  timestamp : Int
deriving DecidableEq, Repr

/-- Lookup in the insertion-ordered association list modelling a JavaScript
`Map`: the value of the first pair whose key matches. -/
def jsMapGet (k : String) (m : List (String × β)) : Option β :=
  match m with
  | [] => none
  | (k0, v0) :: rest => if k0 == k then some v0 else jsMapGet k rest

/-- `Map.prototype.set` on the association-list model: an existing key keeps
its position and gets the new value, a fresh key is appended at the end
(JavaScript `Map`s iterate in insertion order). -/
def jsMapSet (k : String) (v : β) (m : List (String × β)) : List (String × β) :=
  match m with
  | [] => [(k, v)]
  | (k0, v0) :: rest =>
    if k0 == k then (k0, v) :: rest else (k0, v0) :: jsMapSet k v rest

/-- `Map.prototype.delete` on the association-list model: removes the entry
with the given key (the first matching pair; a `Map` holds each key once). -/
def jsMapDelete (k : String) (m : List (String × β)) : List (String × β) :=
  match m with
  | [] => []
  | (k0, v0) :: rest =>
    if k0 == k then rest else (k0, v0) :: jsMapDelete k rest

/-- The state of a `SearchCache` (`search-cache.ts`, class `SearchCache`):
the backing `Map` plus the `maxSize` and `ttl` configuration. `ttl` is in
milliseconds. -/
structure SearchCache (α : Type) where
  entries : List (String × CacheEntry α)
  maxSize : Nat
  ttl : Int
deriving DecidableEq, Repr

/-- `new SearchCache(maxSize, ttlMinutes)`: an empty map, with
`ttl = ttlMinutes * 60 * 1000` milliseconds. -/
def SearchCache.empty (maxSize ttlMinutes : Nat) : SearchCache α :=
  ⟨[], maxSize, (ttlMinutes : Int) * 60 * 1000⟩

/-- ASCII lower-casing of one character, as `String.prototype.toLowerCase`
acts on the ASCII range. -/
def jsLowerChar (c : Char) : Char :=
  if 'A' ≤ c ∧ c ≤ 'Z' then Char.ofNat (c.toNat + 32) else c

/-- The whitespace characters stripped by `String.prototype.trim` (space,
tab, line feed, carriage return, vertical tab, form feed). -/
def jsIsSpace (c : Char) : Bool :=
  c = ' ' || c = '\t' || c = '\n' || c = '\r' || c = Char.ofNat 11 || c = Char.ofNat 12

/-- `String.prototype.trim` on a character list: drop whitespace from both
ends. -/
def jsTrimList (cs : List Char) : List Char :=
  ((cs.dropWhile jsIsSpace).reverse.dropWhile jsIsSpace).reverse

/-- `getCacheKey(query, materialId)`: the first 100 characters of the query,
lower-cased and trimmed, prefixed by the material id and a colon. -/
def getCacheKey (query materialId : String) : String :=
  materialId ++ ":" ++ String.mk (jsTrimList ((query.data.take 100).map jsLowerChar))

/-- `SearchCache.get(query, materialId)` at clock value `now` (`Date.now()`).
Returns the cached results if present and not expired; an entry with
`now - timestamp > ttl` is deleted and reported as a miss (`null`). The
updated cache is returned alongside. -/
def SearchCache.get (c : SearchCache α) (query materialId : String) (now : Int) :
    Option (List α) × SearchCache α :=
  let key := getCacheKey query materialId
  match jsMapGet key c.entries with
  | none => (none, c)
  | some e =>
    if now - e.timestamp > c.ttl then
      (none, { c with entries := jsMapDelete key c.entries })
    else
      (some e.results, c)

/-- `SearchCache.set(query, materialId, results)` at clock value `now`:
if the map already holds at least `maxSize` entries, the first key in
iteration order (the oldest-inserted entry) is deleted, then the new entry
is written. -/
def SearchCache.set (c : SearchCache α) (query materialId : String)
    (results : List α) (now : Int) : SearchCache α :=
  let key := getCacheKey query materialId
  let entries :=
    if c.maxSize ≤ c.entries.length then
      match c.entries.head? with
      | some p => jsMapDelete p.1 c.entries
      | none => c.entries
    else c.entries
  { c with entries := jsMapSet key ⟨results, now⟩ entries }

/-- `SearchCache.clear()`. -/
def SearchCache.clear (c : SearchCache α) : SearchCache α :=
  { c with entries := [] }

/-- One recorded call to `SearchCache.set`: its arguments plus the clock
value at which it ran. -/
structure SetOp (α : Type) where
  query : String
  materialId : String
  results : List α
  now : Int

/-- The cache key a recorded `set` call writes under. -/
def SetOp.key (o : SetOp α) : String :=
  getCacheKey o.query o.materialId

/-- The map entry a recorded `set` call writes. -/
def SetOp.entry (o : SetOp α) : CacheEntry α :=
  ⟨o.results, o.now⟩

/-- Replay a sequence of `set` calls against a cache state. -/
def applySets (c : SearchCache α) (ops : List (SetOp α)) : SearchCache α :=
  ops.foldl (fun c o => c.set o.query o.materialId o.results o.now) c

-- Association-list lemmas about the JavaScript `Map` model.

theorem jsMapSet_fresh (k : String) (v : β) (m : List (String × β))
    (h : k ∉ m.map Prod.fst) : jsMapSet k v m = m ++ [(k, v)] := by
  induction m with
  | nil => rfl
  | cons p rest ih =>
    simp only [List.map_cons, List.mem_cons, not_or] at h
    simp only [jsMapSet]
    rw [if_neg (by simp only [beq_iff_eq]; exact fun he => h.1 he.symm)]
    rw [ih h.2]
    rfl

theorem jsMapSet_length_ge (k : String) (v : β) (m : List (String × β)) :
    m.length ≤ (jsMapSet k v m).length := by
  induction m with
  | nil => simp [jsMapSet]
  | cons p rest ih =>
    by_cases hp : p.1 = k
    · simp [jsMapSet, hp]
    · simp only [jsMapSet]
      rw [if_neg (by simp [hp])]
      simp only [List.length_cons]
      omega

theorem jsMapSet_length_le (k : String) (v : β) (m : List (String × β)) :
    (jsMapSet k v m).length ≤ m.length + 1 := by
  induction m with
  | nil => simp [jsMapSet]
  | cons p rest ih =>
    by_cases hp : p.1 = k
    · simp [jsMapSet, hp]
    · simp only [jsMapSet]
      rw [if_neg (by simp [hp])]
      simp only [List.length_cons]
      omega

theorem jsMapDelete_head (p : String × β) (rest : List (String × β)) :
    jsMapDelete p.1 (p :: rest) = rest := by
  simp [jsMapDelete]

theorem jsMapGet_delete_ne (k k' : String) (m : List (String × β)) (h : k ≠ k') :
    jsMapGet k (jsMapDelete k' m) = jsMapGet k m := by
  induction m with
  | nil => rfl
  | cons p rest ih =>
    by_cases hp : p.1 = k'
    · have hpk : p.1 ≠ k := fun hk => h (hk ▸ hp)
      simp only [jsMapDelete]
      rw [if_pos (by simpa using hp)]
      simp only [jsMapGet]
      rw [if_neg (by simpa using hpk)]
    · simp only [jsMapDelete]
      rw [if_neg (by simpa using hp)]
      by_cases hpk : p.1 = k
      · simp only [jsMapGet]
        rw [if_pos (by simpa using hpk), if_pos (by simpa using hpk)]
      · simp only [jsMapGet]
        rw [if_neg (by simpa using hpk), if_neg (by simpa using hpk)]
        exact ih

/-- The key of a pair never occurring among the keys of a map implies the
lookup misses. -/
theorem jsMapGet_of_not_mem (k : String) (m : List (String × β))
    (h : k ∉ m.map Prod.fst) : jsMapGet k m = none := by
  induction m with
  | nil => rfl
  | cons p rest ih =>
    simp only [List.map_cons, List.mem_cons, not_or] at h
    simp only [jsMapGet]
    rw [if_neg (by simp only [beq_iff_eq]; exact fun he => h.1 he.symm)]
    exact ih h.2

theorem jsMapGet_delete_self (k : String) (m : List (String × β))
    (h : (m.map Prod.fst).Nodup) : jsMapGet k (jsMapDelete k m) = none := by
  induction m with
  | nil => rfl
  | cons p rest ih =>
    simp only [List.map_cons, List.nodup_cons] at h
    by_cases hp : p.1 = k
    · simp only [jsMapDelete]
      rw [if_pos (by simpa using hp)]
      exact jsMapGet_of_not_mem k rest (hp ▸ h.1)
    · simp only [jsMapDelete]
      rw [if_neg (by simpa using hp)]
      simp only [jsMapGet]
      rw [if_neg (by simpa using hp)]
      exact ih h.2

theorem jsMapDelete_sublist (k : String) (m : List (String × β)) :
    (jsMapDelete k m).Sublist m := by
  induction m with
  | nil => exact List.Sublist.refl []
  | cons p rest ih =>
    simp only [jsMapDelete]
    by_cases hp : p.1 = k
    · rw [if_pos (by simpa using hp)]
      exact List.sublist_cons_self p rest
    · rw [if_neg (by simpa using hp)]
      exact List.Sublist.cons₂ p ih

theorem jsMapSet_map_fst_of_mem (k : String) (v : β) (m : List (String × β))
    (h : k ∈ m.map Prod.fst) : (jsMapSet k v m).map Prod.fst = m.map Prod.fst := by
  induction m with
  | nil => simp at h
  | cons p rest ih =>
    by_cases hp : p.1 = k
    · simp only [jsMapSet]
      rw [if_pos (by simpa using hp)]
      simp
    · simp only [List.map_cons, List.mem_cons] at h
      have hmem : k ∈ rest.map Prod.fst := by
        rcases h with h | h
        · exact absurd h.symm hp
        · exact h
      simp only [jsMapSet]
      rw [if_neg (by simpa using hp)]
      simp only [List.map_cons, ih hmem]

theorem jsMapSet_nodup (k : String) (v : β) (m : List (String × β))
    (h : (m.map Prod.fst).Nodup) : ((jsMapSet k v m).map Prod.fst).Nodup := by
  by_cases hk : k ∈ m.map Prod.fst
  · rw [jsMapSet_map_fst_of_mem k v m hk]
    exact h
  · rw [jsMapSet_fresh k v m hk]
    simp only [List.map_append, List.map_cons, List.map_nil]
    rw [List.nodup_append]
    refine ⟨h, List.nodup_singleton k, ?_⟩
    intro a ha hb
    simp only [List.mem_singleton] at hb
    subst hb
    exact hk ha

theorem jsMapDelete_nodup (k : String) (m : List (String × β))
    (h : (m.map Prod.fst).Nodup) : ((jsMapDelete k m).map Prod.fst).Nodup :=
  List.Nodup.sublist (List.Sublist.map Prod.fst (jsMapDelete_sublist k m)) h

-- Basic facts about `SearchCache.set`.

theorem SearchCache.set_maxSize (c : SearchCache α) (q mat : String) (r : List α) (now : Int) :
    (c.set q mat r now).maxSize = c.maxSize := rfl

theorem SearchCache.set_ttl (c : SearchCache α) (q mat : String) (r : List α) (now : Int) :
    (c.set q mat r now).ttl = c.ttl := rfl

theorem SearchCache.set_length_le (c : SearchCache α) (q mat : String) (r : List α) (now : Int)
    (hmax : 1 ≤ c.maxSize) (h : c.entries.length ≤ c.maxSize) :
    (c.set q mat r now).entries.length ≤ c.maxSize := by
  by_cases hfull : c.maxSize ≤ c.entries.length
  · have hlen : c.entries.length = c.maxSize := le_antisymm h hfull
    cases hent : c.entries with
    | nil => rw [hent] at hlen; simp at hlen; omega
    | cons p rest =>
      simp only [SearchCache.set, hent]
      rw [if_pos (by rw [← hent]; exact hfull)]
      simp only [List.head?]
      rw [jsMapDelete_head p rest]
      have h1 : (jsMapSet (getCacheKey q mat) ⟨r, now⟩ rest).length ≤ rest.length + 1 :=
        jsMapSet_length_le _ _ _
      have h2 : rest.length + 1 = c.maxSize := by
        rw [hent] at hlen
        simpa using hlen
      simpa [h2] using h1
  · push_neg at hfull
    simp only [SearchCache.set]
    rw [if_neg (by omega)]
    have h1 : (jsMapSet (getCacheKey q mat) ⟨r, now⟩ c.entries).length ≤ c.entries.length + 1 :=
      jsMapSet_length_le _ _ _
    omega

theorem applySets_maxSize (ops : List (SetOp α)) (c : SearchCache α) :
    (applySets c ops).maxSize = c.maxSize := by
  induction ops generalizing c with
  | nil => rfl
  | cons o rest ih =>
    simp only [applySets, List.foldl_cons]
    exact ih (c.set o.query o.materialId o.results o.now)

theorem applySets_length_le (ops : List (SetOp α)) (c : SearchCache α)
    (hmax : 1 ≤ c.maxSize) (h : c.entries.length ≤ c.maxSize) :
    (applySets c ops).entries.length ≤ c.maxSize := by
  induction ops generalizing c with
  | nil => exact h
  | cons o rest ih =>
    simp only [applySets, List.foldl_cons]
    have h1 := ih (c.set o.query o.materialId o.results o.now)
    rw [SearchCache.set_maxSize] at h1
    exact h1 hmax (SearchCache.set_length_le c o.query o.materialId o.results o.now hmax h)

theorem applySets_all_fresh (ops : List (SetOp α)) (c : SearchCache α)
    (hfr : ((c.entries.map Prod.fst) ++ ops.map SetOp.key).Nodup)
    (hlen : c.entries.length + ops.length ≤ c.maxSize) :
    (applySets c ops).entries = c.entries ++ ops.map (fun o => (o.key, o.entry)) := by
  induction ops generalizing c with
  | nil => simp [applySets]
  | cons o rest ih =>
    have hcap : ¬ c.maxSize ≤ c.entries.length := by
      simp only [List.length_cons] at hlen
      omega
    have hkey : o.key ∉ c.entries.map Prod.fst := by
      intro hmem
      rw [List.nodup_append] at hfr
      exact hfr.2.2 hmem (by simp [SetOp.key])
    have hmax2 : (c.set o.query o.materialId o.results o.now).maxSize = c.maxSize := rfl
    have hset : (c.set o.query o.materialId o.results o.now).entries
        = c.entries ++ [(o.key, o.entry)] := by
      simp only [SearchCache.set]
      rw [if_neg hcap]
      exact jsMapSet_fresh _ _ _ hkey
    have hfr2 : (((c.set o.query o.materialId o.results o.now).entries.map Prod.fst)
        ++ rest.map SetOp.key).Nodup := by
      rw [hset]
      simp only [List.map_append, List.map_cons, List.map_nil]
      rw [List.append_assoc]
      simpa using hfr
    have hlen2 : (c.set o.query o.materialId o.results o.now).entries.length + rest.length
        ≤ (c.set o.query o.materialId o.results o.now).maxSize := by
      rw [hset, hmax2]
      simp only [List.length_append, List.length_cons, List.length_nil]
      simp only [List.length_cons] at hlen
      omega
    have happ : applySets c (o :: rest)
        = applySets (c.set o.query o.materialId o.results o.now) rest := rfl
    rw [happ, ih (c.set o.query o.materialId o.results o.now) hfr2 hlen2, hset,
      List.append_assoc]
    rfl

theorem applySets_overflow (ops : List (SetOp α)) (c : SearchCache α)
    (hne : ops ≠ [])
    (hmax : 1 ≤ c.maxSize)
    (hfr : ((c.entries.map Prod.fst) ++ ops.map SetOp.key).Nodup)
    (hlen : c.entries.length + ops.length = c.maxSize + 1) :
    (applySets c ops).entries
      = (c.entries ++ ops.map (fun o => (o.key, o.entry))).tail := by
  induction ops generalizing c with
  | nil => exact absurd rfl hne
  | cons o rest ih =>
    have hkey : o.key ∉ c.entries.map Prod.fst := by
      intro hmem
      rw [List.nodup_append] at hfr
      exact hfr.2.2 hmem (by simp [List.map_cons])
    cases hrest : rest with
    | nil =>
      subst hrest
      have hfull : c.entries.length = c.maxSize := by
        simp only [List.length_cons, List.length_nil] at hlen
        omega
      cases hent : c.entries with
      | nil =>
        rw [hent] at hfull
        simp at hfull
        omega
      | cons p tl =>
        have happ : applySets c [o] = c.set o.query o.materialId o.results o.now := rfl
        rw [happ]
        simp only [SearchCache.set]
        rw [if_pos (le_of_eq hfull.symm), hent]
        simp only [List.head?]
        rw [jsMapDelete_head p tl]
        rw [jsMapSet_fresh _ _ _ (by
          intro hmem
          exact hkey (by rw [hent]; simp only [List.map_cons, List.mem_cons]; exact Or.inr hmem))]
        simp [SetOp.key, SetOp.entry]
    | cons o2 rest2 =>
      rw [← hrest]
      have hrestne : rest ≠ [] := by rw [hrest]; simp
      have hcap : ¬ c.maxSize ≤ c.entries.length := by
        have : 1 ≤ rest.length := by
          rw [hrest]; simp
        simp only [List.length_cons] at hlen
        omega
      have hmax2 : (c.set o.query o.materialId o.results o.now).maxSize = c.maxSize := rfl
      have hset : (c.set o.query o.materialId o.results o.now).entries
          = c.entries ++ [(o.key, o.entry)] := by
        simp only [SearchCache.set]
        rw [if_neg hcap]
        exact jsMapSet_fresh _ _ _ hkey
      have hfr2 : (((c.set o.query o.materialId o.results o.now).entries.map Prod.fst)
          ++ rest.map SetOp.key).Nodup := by
        rw [hset]
        simp only [List.map_append, List.map_cons, List.map_nil]
        rw [List.append_assoc]
        simpa using hfr
      have hlen2 : (c.set o.query o.materialId o.results o.now).entries.length + rest.length
          = (c.set o.query o.materialId o.results o.now).maxSize + 1 := by
        rw [hset, hmax2]
        simp only [List.length_append, List.length_cons, List.length_nil]
        simp only [List.length_cons] at hlen
        omega
      have hmax3 : 1 ≤ (c.set o.query o.materialId o.results o.now).maxSize := by
        rw [hmax2]; exact hmax
      have happ : applySets c (o :: rest)
          = applySets (c.set o.query o.materialId o.results o.now) rest := rfl
      rw [happ, ih (c.set o.query o.materialId o.results o.now) hrestne hmax3 hfr2 hlen2,
        hset, List.append_assoc]
      rfl

/-- C2 (amended, restricted to `1 ≤ maxSize`): `SearchCache.set` performed
while the cache already holds at least `maxSize` entries first deletes the
single oldest-inserted entry (the head of the insertion-ordered map) before
writing; replaying `maxSize + 1` `set` calls with pairwise-distinct cache
keys against a fresh cache leaves exactly `maxSize` entries with the key of
the first call absent; and no sequence of `set` calls against a fresh cache
ever leaves more than `maxSize` entries. -/
theorem searchCacheFifoUnderCap {α : Type} (maxSize ttlMinutes : Nat) (hmax : 1 ≤ maxSize) :
    (∀ (c : SearchCache α) (q mat : String) (r : List α) (now : Int),
        c.maxSize = maxSize → maxSize ≤ c.entries.length →
        ∃ p rest, c.entries = p :: rest ∧
          (c.set q mat r now).entries = jsMapSet (getCacheKey q mat) ⟨r, now⟩ rest)
  ∧ (∀ (o : SetOp α) (ops : List (SetOp α)),
        ((o :: ops).map SetOp.key).Nodup → (o :: ops).length = maxSize + 1 →
        (applySets (SearchCache.empty maxSize ttlMinutes) (o :: ops)).entries.length = maxSize
        ∧ o.key ∉
          ((applySets (SearchCache.empty maxSize ttlMinutes) (o :: ops)).entries.map Prod.fst))
  ∧ (∀ ops : List (SetOp α),
        (applySets (SearchCache.empty maxSize ttlMinutes) ops).entries.length ≤ maxSize) := by
  refine ⟨?_, ?_, ?_⟩
  · intro c q mat r now hcmax hfull
    cases hent : c.entries with
    | nil =>
      rw [hent] at hfull
      simp only [List.length_nil] at hfull
      omega
    | cons p rest =>
      refine ⟨p, rest, rfl, ?_⟩
      simp only [SearchCache.set]
      rw [if_pos (by rw [hcmax]; exact hfull), hent]
      simp only [List.head?]
      rw [jsMapDelete_head p rest]
  · intro o ops hnd hcount
    have hlen2 : (SearchCache.empty maxSize ttlMinutes : SearchCache α).entries.length
        + (o :: ops).length
        = (SearchCache.empty maxSize ttlMinutes : SearchCache α).maxSize + 1 := by
      show 0 + (o :: ops).length = maxSize + 1
      rw [Nat.zero_add]
      exact hcount
    have hov := applySets_overflow (o :: ops) (SearchCache.empty maxSize ttlMinutes)
      (by simp) hmax hnd hlen2
    have hov2 : (applySets (SearchCache.empty maxSize ttlMinutes : SearchCache α)
        (o :: ops)).entries = ops.map (fun o => (o.key, o.entry)) := by
      rw [hov]
      rfl
    constructor
    · rw [hov2, List.length_map]
      simp only [List.length_cons] at hcount
      omega
    · rw [hov2]
      intro hmem
      simp only [List.map_cons, List.nodup_cons] at hnd
      apply hnd.1
      rcases List.mem_map.mp hmem with ⟨x, hx, hxe⟩
      rcases List.mem_map.mp hx with ⟨o2, ho2, rfl⟩
      have he : o2.key = o.key := hxe
      rw [← he]
      exact List.mem_map_of_mem SetOp.key ho2
  · intro ops
    exact applySets_length_le ops (SearchCache.empty maxSize ttlMinutes) hmax (Nat.zero_le _)

/-- Witness for C2's amended theorem: with capacity 2 and three `set` calls
under distinct keys, exactly 2 entries survive and the first key is gone. -/
theorem searchCacheFifoUnderCap_witness :
    (applySets (SearchCache.empty 2 5 : SearchCache Nat)
        [⟨"a", "m", [], 0⟩, ⟨"b", "m", [], 0⟩, ⟨"c", "m", [], 0⟩]).entries.length = 2
    ∧ SetOp.key (⟨"a", "m", [], 0⟩ : SetOp Nat) ∉
        ((applySets (SearchCache.empty 2 5 : SearchCache Nat)
          [⟨"a", "m", [], 0⟩, ⟨"b", "m", [], 0⟩, ⟨"c", "m", [], 0⟩]).entries.map Prod.fst) :=
  (searchCacheFifoUnderCap 2 5 (by decide)).2.1
    ⟨"a", "m", [], 0⟩ [⟨"b", "m", [], 0⟩, ⟨"c", "m", [], 0⟩] (by decide) (by decide)

/-- C2 counterexample: a `SearchCache` constructed with capacity
`maxSize = 0` holds one entry after a single `set` call, so the claim's
"the cache never holds more than `maxSize` entries" fails at `maxSize = 0`
(the eviction branch finds no oldest entry to delete and inserts anyway). -/
theorem searchCacheZeroCapacityHoldsEntry :
    ¬ (((SearchCache.empty 0 5 : SearchCache Nat).set "q" "mat" [] 0).entries.length ≤ 0) := by
  decide

/-- C6 (amended): for an entry physically present under the key of
`(query, materialId)`, a `get` strictly more than `ttl` milliseconds after
its timestamp returns `null` and deletes exactly that entry; a `get` within
`ttl` returns the stored results and leaves the cache unchanged; and a
`get` under any other key leaves the entry physically present (a `set` at
capacity may still evict it, see the counterexample). -/
theorem searchCacheLazyTtl {α : Type} (c : SearchCache α) (q mat : String)
    (e : CacheEntry α) (hfound : jsMapGet (getCacheKey q mat) c.entries = some e) :
    (∀ now : Int, c.ttl < now - e.timestamp →
        c.get q mat now = (none, { c with entries := jsMapDelete (getCacheKey q mat) c.entries })
        ∧ ((c.entries.map Prod.fst).Nodup →
            jsMapGet (getCacheKey q mat) ((c.get q mat now).2).entries = none))
    ∧ (∀ now : Int, now - e.timestamp ≤ c.ttl →
        c.get q mat now = (some e.results, c))
    ∧ (∀ (q2 mat2 : String) (now2 : Int), getCacheKey q2 mat2 ≠ getCacheKey q mat →
        jsMapGet (getCacheKey q mat) ((c.get q2 mat2 now2).2).entries = some e) := by
  refine ⟨?_, ?_, ?_⟩
  · intro now hexp
    have hget : c.get q mat now
        = (none, { c with entries := jsMapDelete (getCacheKey q mat) c.entries }) := by
      simp only [SearchCache.get, hfound]
      rw [if_pos (by omega)]
    refine ⟨hget, fun hnd => ?_⟩
    rw [hget]
    exact jsMapGet_delete_self _ _ hnd
  · intro now hfresh
    simp only [SearchCache.get, hfound]
    rw [if_neg (by omega)]
  · intro q2 mat2 now2 hne
    cases hg2 : jsMapGet (getCacheKey q2 mat2) c.entries with
    | none =>
      have hg : c.get q2 mat2 now2 = (none, c) := by
        simp only [SearchCache.get, hg2]
      rw [hg]
      exact hfound
    | some e2 =>
      by_cases hexp2 : now2 - e2.timestamp > c.ttl
      · have hg : c.get q2 mat2 now2
            = (none, { c with entries := jsMapDelete (getCacheKey q2 mat2) c.entries }) := by
          simp only [SearchCache.get, hg2]
          rw [if_pos hexp2]
        rw [hg]
        simp only
        rw [jsMapGet_delete_ne _ _ _ (fun hk => hne hk.symm)]
        exact hfound
      · have hg : c.get q2 mat2 now2 = (some e2.results, c) := by
          simp only [SearchCache.get, hg2]
          rw [if_neg hexp2]
        rw [hg]
        exact hfound

/-- Witness for C6's amended theorem at a concrete one-entry cache: a `get`
at 300001 ms (ttl 300000 ms) misses and removes the entry, a `get` at
1000 ms returns the stored results unchanged, and a `get` under another key
leaves the entry present. -/
theorem searchCacheLazyTtl_witness :
    ((⟨[("mat:q", ⟨[7], 0⟩)], 100, 300000⟩ : SearchCache Nat).get "q" "mat" 300001
        = (none, ⟨[], 100, 300000⟩)
      ∧ jsMapGet (getCacheKey "q" "mat")
          (((⟨[("mat:q", ⟨[7], 0⟩)], 100, 300000⟩ : SearchCache Nat).get "q" "mat" 300001).2).entries
        = none)
    ∧ ((⟨[("mat:q", ⟨[7], 0⟩)], 100, 300000⟩ : SearchCache Nat).get "q" "mat" 1000
        = (some [7], ⟨[("mat:q", ⟨[7], 0⟩)], 100, 300000⟩))
    ∧ jsMapGet (getCacheKey "q" "mat")
        (((⟨[("mat:q", ⟨[7], 0⟩)], 100, 300000⟩ : SearchCache Nat).get "other" "mat" 300001).2).entries
      = some ⟨[7], 0⟩ := by
  have h := searchCacheLazyTtl (⟨[("mat:q", ⟨[7], 0⟩)], 100, 300000⟩ : SearchCache Nat)
    "q" "mat" ⟨[7], 0⟩ (by decide)
  refine ⟨?_, ?_, ?_⟩
  · have h1 := h.1 300001 (by decide)
    exact ⟨by rw [h1.1]; decide, h1.2 (by decide)⟩
  · exact h.2.1 1000 (by decide)
  · exact h.2.2 "other" "mat" 300001 (by decide)

/-- C6 counterexample: an entry expired at time 300001 ms (written at 0 in a
capacity-1 cache with ttl 300000 ms) is present before, and is removed by a
`set` of a different key at that time — so an expired entry does not always
stay physically present until the next `get` with its key touches it. -/
theorem searchCacheExpiredEntryRemovedBySet :
    jsMapGet (getCacheKey "q1" "m1")
        (((SearchCache.empty 1 5 : SearchCache Nat).set "q1" "m1" [] 0).entries)
      = some ⟨[], 0⟩
    ∧ ((300001 : Int) - 0 > ((SearchCache.empty 1 5 : SearchCache Nat).set "q1" "m1" [] 0).ttl)
    ∧ jsMapGet (getCacheKey "q1" "m1")
        ((((SearchCache.empty 1 5 : SearchCache Nat).set "q1" "m1" [] 0).set
            "q2" "m2" [] 300001).entries)
      = none := by
  decide

-- ## Vector store adapter (`src/lib/pinecone.ts`) and the upload scripts

/-- `substring(0, n)` on the character-list view of a string. -/
def jsSubstringTo (s : String) (n : Nat) : String :=
  String.mk (s.data.take n)

/-- The metadata stored with a vector record. The pipeline's
`upsertDocumentChunks` stores only `{materialId, pageNumber, chapterNumber}`
(`text := none`); the standalone upload scripts additionally store a text
prefix (`text := some _`). -/
structure VectorMetadata where
  materialId : String
  text : Option String
  pageNumber : Nat
  chapterNumber : Nat
deriving DecidableEq, Repr

/-- A record upserted into the vector index: its id plus metadata. The
floating-point embedding values are external provider output and are not
modelled. -/
structure VectorRecord where
  id : String
  metadata : VectorMetadata
deriving DecidableEq, Repr

/-- One chunk as passed to `upsertDocumentChunks`: the `chunks` array
element shape `{id, text, pageNumber, chapterNumber?}`. -/
structure ChunkInput where
  id : String
  text : String
  pageNumber : Nat
  chapterNumber : Option Nat
deriving DecidableEq, Repr

/-- Step 3 of `upsertDocumentChunks` (`pinecone.ts`): one vector per chunk,
with the chunk's id and metadata `{materialId, pageNumber,
chapterNumber || 0}`; no text field. -/
def upsertVectorsOf (materialId : String) (chunks : List ChunkInput) : List VectorRecord :=
  chunks.map fun c => ⟨c.id, ⟨materialId, none, c.pageNumber, c.chapterNumber.getD 0⟩⟩

/-- The `chunkData` built in Step 4 of `processDocumentAsync`
(`api/materials/route.ts`): ids `<materialId>-chunk-<index>`, the rough page
estimate `Math.floor(index / 2)`, and chapter number 1. -/
def routeChunkData (materialId : String) (chunks : List String) : List ChunkInput :=
  chunks.mapIdx fun i chunk => ⟨materialId ++ "-chunk-" ++ toString i, chunk, i / 2, some 1⟩

/-- One vector uploaded by the standalone vector upload script
(`vectorize-material.ts` and its variants): the same id scheme, but the
metadata carries a 500-character prefix of the chunk text and
`pageNumber = Math.floor(i / 3) + 1`, `chapterNumber = 0`. -/
def scriptVectorRecord (materialId : String) (chunks : List String) (i : Nat) : VectorRecord :=
  ⟨materialId ++ "-chunk-" ++ toString i,
    ⟨materialId, some (jsSubstringTo (chunks.getD i "") 500), i / 3 + 1, 0⟩⟩

/-- The script's upload loop: one upsert per chunk index below
`min(chunks.length, 30)`. -/
def scriptUploadedVectors (materialId : String) (chunks : List String) : List VectorRecord :=
  (List.range (min chunks.length 30)).map (scriptVectorRecord materialId chunks)

/-- Splitting a list into consecutive batches of `n` (the `for` loop
stepping by `batchSize` over the vectors array), with fuel for
termination. -/
def toBatchesGo (n : Nat) : Nat → List α → List (List α)
  | _, [] => []
  | 0, _ => []
  | fuel + 1, l => l.take n :: toBatchesGo n fuel (l.drop n)

/-- `for (let i = 0; i < vectors.length; i += batchSize)` batch slicing. -/
def toBatches (n : Nat) (l : List α) : List (List α) :=
  toBatchesGo n l.length l

/-- Outcomes of the external calls made by `upsertDocumentChunks` when the
index is configured: the `textChunk.deleteMany`, each `textChunk.create`
(by chunk position), the batched local-embedding call, and each Pinecone
upsert sub-batch (by batch position). -/
structure UpsertEnv where
  deleteTextChunks : Except JsError Unit
  createTextChunk : Nat → Except JsError Unit
  embedBatch : Except JsError Unit
  upsertBatch : Nat → Except JsError Unit

/-- Observable result of one `upsertDocumentChunks` call: the returned or
thrown value, whether the text-chunk table was cleared, how many text
chunks were written, and which vector records were committed. -/
structure UpsertOutcome where
  result : Except JsError Unit
  clearedTextChunks : Bool
  createdTextChunks : Nat
  upserted : List VectorRecord
deriving Repr

/-- The sequential `textChunk.create` loop: chunks created before the first
failing create persist; the failure aborts the rest. Returns the number of
creates that committed and the aborting error, if any. -/
def runCreates (env : UpsertEnv) : Nat → List ChunkInput → Nat × Option JsError
  | _, [] => (0, none)
  | j, _ :: rest =>
    match env.createTextChunk j with
    | .error e => (0, some e)
    | .ok _ =>
      let r := runCreates env (j + 1) rest
      (r.1 + 1, r.2)

/-- The batched Pinecone upsert loop: sub-batches committed before the
first failing upsert persist (at-least-once, no rollback). -/
def runUpserts (env : UpsertEnv) : Nat → List (List VectorRecord) →
    List VectorRecord × Option JsError
  | _, [] => ([], none)
  | k, b :: rest =>
    match env.upsertBatch k with
    | .error e => ([], some e)
    | .ok _ =>
      let r := runUpserts env (k + 1) rest
      (b ++ r.1, r.2)

/-- `upsertDocumentChunks(materialId, chunks)`: with no `PINECONE_API_KEY`
the index is `null` and the call returns at once with no effect; otherwise
it clears and rewrites the text-chunk lookup table, generates the batch of
embeddings, and upserts the vectors in batches of 100. -/
def upsertDocumentChunksRun (apiKey : Option String) (env : UpsertEnv)
    (materialId : String) (chunks : List ChunkInput) : UpsertOutcome :=
  if apiKey.isNone then ⟨.ok (), false, 0, []⟩
  else
    match env.deleteTextChunks with
    | .error e => ⟨.error e, false, 0, []⟩
    | .ok _ =>
      let cr := runCreates env 0 chunks
      match cr.2 with
      | some e => ⟨.error e, true, cr.1, []⟩
      | none =>
        match env.embedBatch with
        | .error e => ⟨.error e, true, cr.1, []⟩
        | .ok _ =>
          let up := runUpserts env 0 (toBatches 100 (upsertVectorsOf materialId chunks))
          ⟨match up.2 with
            | some e => .error e
            | none => .ok (), true, cr.1, up.1⟩

/-- A match returned by the Pinecone query: id, similarity score and the
`pageNumber` metadata field, each possibly absent (`|| 0` fallbacks in the
source). Scores are floating-point in the provider; modelled as `Int`. -/
structure PineMatch where
  id : String
  score : Option Int
  pageNumber : Option Nat
deriving DecidableEq, Repr

/-- A row of the `textChunk` lookup table as returned by `findMany`. -/
structure DbChunk where
  id : String
  text : String
deriving DecidableEq, Repr

/-- Outcomes of the external calls made by `searchRelevantChunks`: the
local query embedding, the Pinecone query, and the `textChunk.findMany`. -/
structure SearchEnv where
  embed : Except JsError Unit
  queryResult : Except JsError (List PineMatch)
  findChunks : Except JsError (List DbChunk)

/-- One search result: the chunk text resolved from the lookup table (empty
string when missing), the page number and the score. -/
structure SChunk where
  text : String
  pageNumber : Nat
  score : Int
deriving DecidableEq, Repr

/-- Observable result of one `searchRelevantChunks` call, with a flag
recording whether the Pinecone index was queried. -/
structure SearchOutcome where
  result : Except JsError (List SChunk)
  queried : Bool
deriving Repr

/-- `searchRelevantChunks(query, materialId, topK)`: with no API key the
call returns `[]` without touching the index; otherwise it embeds the
query, queries Pinecone filtered by material id, resolves the returned ids
against the text-chunk lookup table (`new Map`, later rows win) and joins
text, page number and score. -/
def searchRelevantChunksRun (apiKey : Option String) (env : SearchEnv)
    (query materialId : String) (topK : Nat) : SearchOutcome :=
  if apiKey.isNone then ⟨.ok [], false⟩
  else
    match env.embed with
    | .error e => ⟨.error e, false⟩
    | .ok _ =>
      match env.queryResult with
      | .error e => ⟨.error e, true⟩
      | .ok ms =>
        match env.findChunks with
        | .error e => ⟨.error e, true⟩
        | .ok textChunks =>
          let textMap := textChunks.foldl (fun m c => jsMapSet c.id c m) []
          ⟨.ok (ms.map fun m =>
            ⟨((jsMapGet m.id textMap).map DbChunk.text).getD "",
              m.pageNumber.getD 0, m.score.getD 0⟩), true⟩

/-- Observable result of one `deleteMaterialVectors` call. -/
structure DeleteOutcome where
  result : Except JsError Unit
  deleted : Bool
deriving Repr

/-- `deleteMaterialVectors(materialId)`: with no API key it returns at once
without deleting; otherwise it issues the filtered `deleteMany`. -/
def deleteMaterialVectorsRun (apiKey : Option String)
    (deleteCall : Except JsError Unit) (materialId : String) : DeleteOutcome :=
  if apiKey.isNone then ⟨.ok (), false⟩
  else
    match deleteCall with
    | .error e => ⟨.error e, false⟩
    | .ok _ => ⟨.ok (), true⟩

/-- C3 (amended, pipeline path): every vector record that
`upsertDocumentChunks` builds from the orchestrator's `chunkData` has id
`<materialId>-chunk-<i>` where `i` is the chunk's position in the split,
and metadata exactly `{materialId, pageNumber, chapterNumber}` with no raw
chunk text (`text = none`). The standalone upload scripts are the
exception, see the counterexample. -/
theorem pipelineVectorShape (materialId : String) (chunks : List String) (i : Nat)
    (h : i < chunks.length) :
    ∀ hlen : i < (upsertVectorsOf materialId (routeChunkData materialId chunks)).length,
      (upsertVectorsOf materialId (routeChunkData materialId chunks)).get ⟨i, hlen⟩
        = ⟨materialId ++ "-chunk-" ++ toString i, ⟨materialId, none, i / 2, 1⟩⟩ := by
  intro hlen
  have h2 : i < (routeChunkData materialId chunks).length := by
    simpa [routeChunkData] using h
  have hmap : (upsertVectorsOf materialId (routeChunkData materialId chunks)).get ⟨i, hlen⟩
      = (fun c : ChunkInput =>
          VectorRecord.mk c.id ⟨materialId, none, c.pageNumber, c.chapterNumber.getD 0⟩)
        ((routeChunkData materialId chunks).get ⟨i, h2⟩) := by
    simp [upsertVectorsOf, List.get_eq_getElem, List.getElem_map]
  rw [hmap]
  have hidx : (routeChunkData materialId chunks).get ⟨i, h2⟩
      = ⟨materialId ++ "-chunk-" ++ toString i, chunks.get ⟨i, h⟩, i / 2, some 1⟩ := by
    show (chunks.mapIdx fun i chunk =>
        ChunkInput.mk (materialId ++ "-chunk-" ++ toString i) chunk (i / 2) (some 1)).get ⟨i, h2⟩
      = _
    exact List.get_mapIdx chunks _ i h h2
  rw [hidx]
  rfl

/-- Witness for C3's amended theorem at a two-chunk split. -/
theorem pipelineVectorShape_witness :
    (upsertVectorsOf "m" (routeChunkData "m" ["alpha", "beta"])).get ⟨1, by decide⟩
      = ⟨"m-chunk-1", ⟨"m", none, 0, 1⟩⟩ :=
  pipelineVectorShape "m" ["alpha", "beta"] 1 (by decide) (by decide)

/-- C3 counterexample: the standalone vector upload scripts, which also
upsert records for a document, keep the id scheme but store a raw
500-character prefix of the chunk text in the vector metadata — so not
every upserted vector record's metadata is exactly
`{documentId, pageNumber, chapterNumber}`. -/
theorem scriptVectorMetadataHasText :
    (scriptUploadedVectors "m" ["hello"]).map VectorRecord.id = ["m-chunk-0"]
    ∧ ¬ (∀ v ∈ scriptUploadedVectors "m" ["hello"], v.metadata.text = none) := by
  decide

/-- C7: with no Pinecone API key the index handle is null, and then
`upsertDocumentChunks` returns without writing anything (no table clear, no
chunk rows, no vectors), `searchRelevantChunks` returns the empty list
without querying, and `deleteMaterialVectors` returns without deleting —
and none of the three throws. -/
theorem unconfiguredIndexDegradesToNoOp (apiKey : Option String) (h : apiKey = none)
    (envU : UpsertEnv) (envS : SearchEnv) (del : Except JsError Unit)
    (materialId query : String) (topK : Nat) (chunks : List ChunkInput) :
    upsertDocumentChunksRun apiKey envU materialId chunks = ⟨.ok (), false, 0, []⟩
    ∧ searchRelevantChunksRun apiKey envS query materialId topK = ⟨.ok [], false⟩
    ∧ deleteMaterialVectorsRun apiKey del materialId = ⟨.ok (), false⟩ := by
  subst h
  exact ⟨rfl, rfl, rfl⟩

/-- Witness for C7 at concrete arguments (and call outcomes that would all
succeed, which the unconfigured branch never consults). -/
theorem unconfiguredIndexDegradesToNoOp_witness :
    upsertDocumentChunksRun none ⟨.ok (), fun _ => .ok (), .ok (), fun _ => .ok ()⟩ "m"
        [⟨"m-chunk-0", "t", 0, some 1⟩] = ⟨.ok (), false, 0, []⟩
    ∧ searchRelevantChunksRun none ⟨.ok (), .ok [], .ok []⟩ "q" "m" 5 = ⟨.ok [], false⟩
    ∧ deleteMaterialVectorsRun none (.ok ()) "m" = ⟨.ok (), false⟩ :=
  unconfiguredIndexDegradesToNoOp none rfl ⟨.ok (), fun _ => .ok (), .ok (), fun _ => .ok ()⟩
    ⟨.ok (), .ok [], .ok []⟩ (.ok ()) "m" "q" 5 [⟨"m-chunk-0", "t", 0, some 1⟩]

-- ## Chapter detection (`src/lib/file-processor.ts`, `detectChapters`)

/-- A regular-expression match as consumed by `detectChapters`: the parsed
chapter number (`parseInt(match[1])`), the raw title capture (`match[2]`)
and the match's start index in the text (`match.index`). -/
structure RMatch where
  num : Nat
  title : List Char
  index : Nat
deriving DecidableEq, Repr

/-- `parseInt` on the digit string captured by `(\d+)`. -/
def parseDigits (cs : List Char) : Nat :=
  cs.foldl (fun n c => n * 10 + (c.toNat - '0'.toNat)) 0

/-- The literal `chapter` in both cases: patterns 1 and 2 of
`chapterPatterns` both carry the `i` flag, so they are the same
case-insensitive pattern. -/
def chapterCI : List (Char × Char) :=
  [('c', 'C'), ('h', 'H'), ('a', 'A'), ('p', 'P'), ('t', 'T'), ('e', 'E'), ('r', 'R')]

/-- Case-insensitive literal test at the head of the text. -/
def startsWithCI : List Char → List (Char × Char) → Bool
  | _, [] => true
  | [], _ :: _ => false
  | c :: cs, (l, u) :: ps => (c = l || c = u) && startsWithCI cs ps

/-- The `[:\s]` character class. -/
def isColonOrSpace (c : Char) : Bool := c = ':' || jsIsSpace c

/-- Length of the maximal prefix satisfying `p` (a greedy character-class
repetition). -/
def countWhile (p : Char → Bool) (cs : List Char) : Nat :=
  (cs.takeWhile p).length

/-- Backtracking choice for `[:\s]+` directly followed by `([^\n]+)`: the
largest `k` with `1 ≤ k ≤ r` such that the character at offset `k` exists
and is not a newline (the engine shrinks the greedy `[:\s]+` until `[^\n]+`
can start). -/
def chooseSep (s : List Char) : Nat → Option Nat
  | 0 => none
  | k + 1 =>
    match (s.drop (k + 1)).head? with
    | some c => if c ≠ '\n' then some (k + 1) else chooseSep s k
    | none => chooseSep s k

/-- Attempt `/Chapter\s+(\d+)[:\s]+([^\n]+)/i` at the start of `s`; on
success returns the parsed number, the raw title capture, and the match
length. -/
def tryChapterAt (s : List Char) : Option (Nat × List Char × Nat) :=
  if startsWithCI s chapterCI then
    let s1 := s.drop 7
    let w := countWhile jsIsSpace s1
    if w = 0 then none
    else
      let s2 := s1.drop w
      let d := countWhile Char.isDigit s2
      if d = 0 then none
      else
        let numStr := s2.take d
        let s3 := s2.drop d
        let r := countWhile isColonOrSpace s3
        if r = 0 then none
        else
          match chooseSep s3 r with
          | none => none
          | some k =>
            let s4 := s3.drop k
            let t := countWhile (fun c => c ≠ '\n') s4
            some (parseDigits numStr, s4.take t, 7 + w + d + k + t)
  else none

/-- Attempt `/(\d+)\.\s+([A-Z][^\n]+)/` at the start of `s`. -/
def tryNumberedAt (s : List Char) : Option (Nat × List Char × Nat) :=
  let d := countWhile Char.isDigit s
  if d = 0 then none
  else
    let s1 := s.drop d
    match s1.head? with
    | some '.' =>
      let s2 := s1.drop 1
      let w := countWhile jsIsSpace s2
      if w = 0 then none
      else
        let s3 := s2.drop w
        match s3.head? with
        | some c =>
          if 'A' ≤ c ∧ c ≤ 'Z' then
            let s4 := s3.drop 1
            let t := countWhile (fun ch => ch ≠ '\n') s4
            if t = 0 then none
            else some (parseDigits (s.take d), c :: s4.take t, d + 1 + w + 1 + t)
          else none
        | none => none
    | _ => none

/-- `text.matchAll(pattern)` for a pattern attempted by `tryAt`: scan left
to right, resuming after each match's end (`lastIndex`); fuel bounds the
steps (every step consumes at least one character, and every successful
attempt reports a positive match length). -/
def scanMatches (tryAt : List Char → Option (Nat × List Char × Nat)) :
    Nat → List Char → Nat → List RMatch
  | 0, _, _ => []
  | _ + 1, [], _ => []
  | fuel + 1, c :: rest, pos =>
    match tryAt (c :: rest) with
    | some (n, title, len) =>
      ⟨n, title, pos⟩ :: scanMatches tryAt fuel ((c :: rest).drop len) (pos + len)
    | none => scanMatches tryAt fuel rest (pos + 1)

/-- All matches of the case-insensitive `Chapter` pattern. -/
def matchAllChapter (s : List Char) : List RMatch :=
  scanMatches tryChapterAt (s.length + 1) s 0

/-- All matches of the numbered-heading pattern. -/
def matchAllNumbered (s : List Char) : List RMatch :=
  scanMatches tryNumberedAt (s.length + 1) s 0

/-- A detected chapter: `{number, title, startIndex, endIndex}`. -/
structure Chapter where
  number : Nat
  title : String
  startIndex : Nat
  endIndex : Nat
deriving DecidableEq, Repr

/-- The `matches.forEach` body of `detectChapters`: a match whose chapter
number is in `seenNumbers` is skipped; a kept match yields a chapter with
the trimmed title capture, the match's start index, and as end index the
start index of the next match in the unfiltered match array (or the text
length for the last match). -/
def buildChapters (textLen : Nat) (seen : List Nat) : List RMatch → List Chapter
  | [] => []
  | m :: rest =>
    let endIndex :=
      match rest.head? with
      | some m2 => m2.index
      | none => textLen
    if m.num ∈ seen then buildChapters textLen seen rest
    else ⟨m.num, String.mk (jsTrimList m.title), m.index, endIndex⟩
      :: buildChapters textLen (m.num :: seen) rest

/-- Specification-side filter: keep only the first match for each chapter
number, in order. -/
def keepFirstMatches (seen : List Nat) : List RMatch → List RMatch
  | [] => []
  | m :: rest =>
    if m.num ∈ seen then keepFirstMatches seen rest
    else m :: keepFirstMatches (m.num :: seen) rest

/-- Specification-side filter on bare numbers: first occurrence of each. -/
def keepFirstNums (seen : List Nat) : List Nat → List Nat
  | [] => []
  | n :: rest =>
    if n ∈ seen then keepFirstNums seen rest
    else n :: keepFirstNums (n :: seen) rest

/-- `detectChapters(text)`: try the three chapter patterns in order (the
first two are the same case-insensitive pattern), build chapters from the
first pattern with matches, and fall back to one synthetic chapter
spanning the whole document when none match. -/
def detectChapters (text : String) : List Chapter :=
  let s := text.data
  let chapters :=
    if matchAllChapter s ≠ [] then buildChapters s.length [] (matchAllChapter s)
    else if matchAllChapter s ≠ [] then buildChapters s.length [] (matchAllChapter s)
    else if matchAllNumbered s ≠ [] then buildChapters s.length [] (matchAllNumbered s)
    else []
  if chapters = [] then [⟨1, "Full Document", 0, s.length⟩] else chapters

theorem buildChapters_keepFirst (ms : List RMatch) (textLen : Nat) (seen : List Nat) :
    (buildChapters textLen seen ms).map (fun c => (c.number, c.title, c.startIndex))
      = (keepFirstMatches seen ms).map
          (fun m => (m.num, String.mk (jsTrimList m.title), m.index)) := by
  induction ms generalizing seen with
  | nil => rfl
  | cons m rest ih =>
    simp only [buildChapters, keepFirstMatches]
    by_cases hm : m.num ∈ seen
    · rw [if_pos hm, if_pos hm]
      exact ih seen
    · rw [if_neg hm, if_neg hm]
      simp only [List.map_cons]
      rw [ih (m.num :: seen)]

theorem buildChapters_nums (ms : List RMatch) (textLen : Nat) (seen : List Nat) :
    (buildChapters textLen seen ms).map Chapter.number
      = keepFirstNums seen (ms.map RMatch.num) := by
  induction ms generalizing seen with
  | nil => rfl
  | cons m rest ih =>
    simp only [buildChapters, keepFirstNums, List.map_cons]
    by_cases hm : m.num ∈ seen
    · rw [if_pos hm, if_pos hm]
      exact ih seen
    · rw [if_neg hm, if_neg hm]
      simp only [List.map_cons]
      rw [ih (m.num :: seen)]

theorem keepFirstNums_nodup (l : List Nat) (seen : List Nat) :
    (keepFirstNums seen l).Nodup ∧ ∀ n ∈ keepFirstNums seen l, n ∉ seen := by
  induction l generalizing seen with
  | nil => exact ⟨List.nodup_nil, by simp [keepFirstNums]⟩
  | cons n rest ih =>
    simp only [keepFirstNums]
    by_cases hn : n ∈ seen
    · rw [if_pos hn]
      exact ih seen
    · rw [if_neg hn]
      have h2 := ih (n :: seen)
      constructor
      · rw [List.nodup_cons]
        exact ⟨fun hmem => (h2.2 n hmem) (List.mem_cons_self n seen), h2.1⟩
      · intro x hx
        rcases List.mem_cons.mp hx with rfl | hx2
        · exact hn
        · exact fun hxseen => (h2.2 x hx2) (List.mem_cons_of_mem n hxseen)

theorem buildChapters_ne_nil (textLen : Nat) (m : RMatch) (rest : List RMatch) :
    buildChapters textLen [] (m :: rest) ≠ [] := by
  simp only [buildChapters]
  rw [if_neg (by simp)]
  simp

/-- C8: when no chapter pattern matches anywhere in the text,
`detectChapters` returns exactly one synthetic chapter with number 1
spanning index 0 to `text.length`; the match-processing step keeps, in
order, exactly the first match of each chapter number (discarding any match
whose number was already seen), so chapter numbers are duplicate-free; and
when matches exist the result is that processing of the first pattern with
matches. -/
theorem detectChaptersFallbackAndDedup (text : String) :
    (matchAllChapter text.data = [] → matchAllNumbered text.data = [] →
      detectChapters text = [⟨1, "Full Document", 0, text.length⟩])
    ∧ (∀ (textLen : Nat) (ms : List RMatch),
        (buildChapters textLen [] ms).map (fun c => (c.number, c.title, c.startIndex))
          = (keepFirstMatches [] ms).map
              (fun m => (m.num, String.mk (jsTrimList m.title), m.index))
        ∧ ((buildChapters textLen [] ms).map Chapter.number).Nodup)
    ∧ (matchAllChapter text.data ≠ [] →
        detectChapters text = buildChapters text.data.length [] (matchAllChapter text.data))
    ∧ (matchAllChapter text.data = [] → matchAllNumbered text.data ≠ [] →
        detectChapters text
          = buildChapters text.data.length [] (matchAllNumbered text.data)) := by
  refine ⟨?_, ?_, ?_, ?_⟩
  · intro h1 h3
    simp only [detectChapters, h1, h3]
    simp
  · intro textLen ms
    refine ⟨buildChapters_keepFirst ms textLen [], ?_⟩
    rw [buildChapters_nums ms textLen []]
    exact (keepFirstNums_nodup (ms.map RMatch.num) []).1
  · intro h1
    obtain ⟨m, rest, hms⟩ : ∃ m rest, matchAllChapter text.data = m :: rest := by
      cases hc : matchAllChapter text.data with
      | nil => exact absurd hc h1
      | cons a b => exact ⟨a, b, rfl⟩
    simp only [detectChapters, hms]
    rw [if_pos (show (m :: rest : List RMatch) ≠ [] by simp)]
    rw [if_neg (buildChapters_ne_nil text.data.length m rest)]
  · intro h1 h3
    obtain ⟨m, rest, hms⟩ : ∃ m rest, matchAllNumbered text.data = m :: rest := by
      cases hc : matchAllNumbered text.data with
      | nil => exact absurd hc h3
      | cons a b => exact ⟨a, b, rfl⟩
    simp only [detectChapters, h1, hms]
    rw [if_neg (show ¬ (([] : List RMatch) ≠ []) by simp)]
    rw [if_neg (show ¬ (([] : List RMatch) ≠ []) by simp)]
    rw [if_pos (show (m :: rest : List RMatch) ≠ [] by simp)]
    rw [if_neg (buildChapters_ne_nil text.data.length m rest)]

/-- Witness for C8 at a text matching no chapter pattern: the single
synthetic chapter spanning the whole 11-character text. -/
theorem detectChaptersFallbackAndDedup_witness :
    detectChapters "hello world" = [⟨1, "Full Document", 0, 11⟩] :=
  (detectChaptersFallbackAndDedup "hello world").1 (by decide) (by decide)

-- ## Database retry helper (`src/lib/prisma.ts`, `executeWithRetry`)

/-- Prefix test on character lists (`hay` starts with `needle`). -/
def startsWithList : List Char → List Char → Bool
  | _, [] => true
  | [], _ :: _ => false
  | c :: cs, d :: ds => c = d && startsWithList cs ds

/-- Substring containment on character lists. -/
def containsList (needle : List Char) : List Char → Bool
  | [] => needle.isEmpty
  | c :: rest => startsWithList (c :: rest) needle || containsList needle rest

/-- `String.prototype.includes(sub)`. -/
def jsIncludes (s sub : String) : Bool :=
  containsList sub.data s.data

/-- The retryability classifier of `executeWithRetry`: the Prisma
connection/timeout codes P1001, P1002, P1008, P1017, or a message
containing `ECONNREFUSED` or `ETIMEDOUT`. -/
def isRetryableDbError (e : JsError) : Bool :=
  e.code = some "P1001" || e.code = some "P1002" || e.code = some "P1008"
    || e.code = some "P1017"
    || jsIncludes e.message "ECONNREFUSED"
    || jsIncludes e.message "ETIMEDOUT"

/-- The backoff delay awaited before the retry following attempt number
`attempt`: `Math.min(1000 * Math.pow(2, attempt), 5000)` milliseconds. -/
def backoffDelay (attempt : Nat) : Nat :=
  min (1000 * 2 ^ attempt) 5000

/-- Observable result of an `executeWithRetry` run: the returned value or
the thrown error, the number of times the operation was invoked, and the
backoff delays awaited between invocations, in order. -/
structure RetryResult (α : Type) where
  result : Except JsError α
  attempts : Nat
  delays : List Nat
deriving Repr

/-- The `for` loop of `executeWithRetry`, with `left` iterations remaining
after the current attempt (`left = maxRetries - attempt`). A success
returns; a non-retryable error, or an error on the final attempt, breaks
and is rethrown as `lastError`; otherwise the loop awaits
`backoffDelay attempt` and retries. Each invocation's outcome is
`op attempt`. -/
def retryGo (op : Nat → Except JsError α) (attempt : Nat) : Nat → RetryResult α
  | 0 =>
    match op attempt with
    | .ok v => ⟨.ok v, 1, []⟩
    | .error e => ⟨.error e, 1, []⟩
  | left + 1 =>
    match op attempt with
    | .ok v => ⟨.ok v, 1, []⟩
    | .error e =>
      if isRetryableDbError e then
        let r := retryGo op (attempt + 1) left
        ⟨r.result, r.attempts + 1, backoffDelay attempt :: r.delays⟩
      else ⟨.error e, 1, []⟩

/-- `executeWithRetry(operation, maxRetries)`. -/
def executeWithRetry (op : Nat → Except JsError α) (maxRetries : Nat) : RetryResult α :=
  retryGo op 0 maxRetries

theorem retryGo_step (op : Nat → Except JsError α) (a left : Nat) (e : JsError)
    (h : op a = .error e) (hr : isRetryableDbError e = true) :
    retryGo op a (left + 1)
      = ⟨(retryGo op (a + 1) left).result, (retryGo op (a + 1) left).attempts + 1,
          backoffDelay a :: (retryGo op (a + 1) left).delays⟩ := by
  simp [retryGo, h, hr]

theorem retryGo_attempts_pos (op : Nat → Except JsError α) (a left : Nat) :
    1 ≤ (retryGo op a left).attempts := by
  cases left with
  | zero => cases h : op a <;> simp [retryGo, h]
  | succ left =>
    cases h : op a with
    | ok v => simp [retryGo, h]
    | error e =>
      by_cases hr : isRetryableDbError e
      · rw [retryGo_step op a left e h hr]
        show 1 ≤ (retryGo op (a + 1) left).attempts + 1
        omega
      · simp [retryGo, h, hr]

theorem retryGo_attempts_le (op : Nat → Except JsError α) (a left : Nat) :
    (retryGo op a left).attempts ≤ left + 1 := by
  induction left generalizing a with
  | zero => cases h : op a <;> simp [retryGo, h]
  | succ left ih =>
    cases h : op a with
    | ok v => simp [retryGo, h]
    | error e =>
      by_cases hr : isRetryableDbError e
      · rw [retryGo_step op a left e h hr]
        have := ih (a + 1)
        simp only
        omega
      · simp [retryGo, h, hr]

theorem retryGo_delays (op : Nat → Except JsError α) (a left : Nat) :
    (retryGo op a left).delays
      = (List.range ((retryGo op a left).attempts - 1)).map (fun i => backoffDelay (a + i)) := by
  induction left generalizing a with
  | zero => cases h : op a <;> simp [retryGo, h]
  | succ left ih =>
    cases h : op a with
    | ok v => simp [retryGo, h]
    | error e =>
      by_cases hr : isRetryableDbError e
      · rw [retryGo_step op a left e h hr]
        obtain ⟨m, hm⟩ : ∃ m, (retryGo op (a + 1) left).attempts = m + 1 :=
          ⟨(retryGo op (a + 1) left).attempts - 1, by
            have := retryGo_attempts_pos op (a + 1) left
            omega⟩
        have ih2 := ih (a + 1)
        rw [hm] at ih2
        simp only [Nat.add_sub_cancel] at ih2
        simp only [hm, Nat.add_sub_cancel, ih2, List.range_succ_eq_map, List.map_cons,
          List.map_map, Nat.add_zero]
        congr 1
        apply List.map_congr_left
        intro i hi
        show backoffDelay (a + 1 + i) = backoffDelay (a + (i + 1))
        congr 1
        omega
      · simp [retryGo, h, hr]

theorem retryGo_retryable (op : Nat → Except JsError α) (a left : Nat) :
    ∀ i, i + 1 < (retryGo op a left).attempts →
      ∃ e, op (a + i) = .error e ∧ isRetryableDbError e = true := by
  induction left generalizing a with
  | zero =>
    intro i hi
    cases h : op a <;> simp [retryGo, h] at hi
  | succ left ih =>
    intro i hi
    cases h : op a with
    | ok v =>
      simp [retryGo, h] at hi
    | error e =>
      by_cases hr : isRetryableDbError e
      · rw [retryGo_step op a left e h hr] at hi
        have hi2 : i + 1 < (retryGo op (a + 1) left).attempts + 1 := hi
        cases i with
        | zero => exact ⟨e, by simpa using h, hr⟩
        | succ j =>
          have hj : j + 1 < (retryGo op (a + 1) left).attempts := by omega
          rcases ih (a + 1) j hj with ⟨e2, he2, hr2⟩
          refine ⟨e2, ?_, hr2⟩
          rw [show a + (j + 1) = a + 1 + j by omega]
          exact he2
      · simp [retryGo, h, hr] at hi

theorem retryGo_exhaust (op : Nat → Except JsError α) (a left : Nat)
    (h : ∀ i, i ≤ left → ∃ e, op (a + i) = .error e ∧ isRetryableDbError e = true) :
    (retryGo op a left).attempts = left + 1
    ∧ ∃ e, op (a + left) = .error e ∧ (retryGo op a left).result = .error e := by
  induction left generalizing a with
  | zero =>
    rcases h 0 le_rfl with ⟨e, he, hr⟩
    rw [Nat.add_zero] at he
    exact ⟨by simp [retryGo, he], e, by simpa using he, by simp [retryGo, he]⟩
  | succ left ih =>
    rcases h 0 (Nat.zero_le _) with ⟨e, he, hr⟩
    rw [Nat.add_zero] at he
    have hrec := ih (a + 1) (fun i hi => by
      rcases h (i + 1) (by omega) with ⟨e2, he2, hr2⟩
      refine ⟨e2, ?_, hr2⟩
      rw [show a + 1 + i = a + (i + 1) by omega]
      exact he2)
    constructor
    · rw [retryGo_step op a left e he hr]
      have h1 := hrec.1
      simp only
      omega
    · rcases hrec.2 with ⟨e2, he2, hres⟩
      refine ⟨e2, ?_, ?_⟩
      · rw [show a + (left + 1) = a + 1 + left by omega]
        exact he2
      · rw [retryGo_step op a left e he hr]
        exact hres

/-- C9: the retry wrapper invokes the operation sequentially at most
`maxRetries + 1` times; the delay before the retry following attempt `i` is
exactly `min(1000 * 2^i, 5000)` ms; a retry only ever follows a failure the
classifier marks retryable; a non-retryable failure on the first attempt is
rethrown immediately after a single invocation with no delays; and when
every allowed attempt fails retryably, the error observed on the final
attempt is rethrown unchanged after exactly `maxRetries + 1` invocations. -/
theorem executeWithRetryContract (op : Nat → Except JsError α) (maxRetries : Nat) :
    (executeWithRetry op maxRetries).attempts ≤ maxRetries + 1
    ∧ (executeWithRetry op maxRetries).delays
        = (List.range ((executeWithRetry op maxRetries).attempts - 1)).map backoffDelay
    ∧ (∀ i, i + 1 < (executeWithRetry op maxRetries).attempts →
        ∃ e, op i = .error e ∧ isRetryableDbError e = true)
    ∧ (∀ e, op 0 = .error e → isRetryableDbError e = false →
        executeWithRetry op maxRetries = ⟨.error e, 1, []⟩)
    ∧ ((∀ i, i ≤ maxRetries → ∃ e, op i = .error e ∧ isRetryableDbError e = true) →
        (executeWithRetry op maxRetries).attempts = maxRetries + 1
        ∧ ∃ e, op maxRetries = .error e
            ∧ (executeWithRetry op maxRetries).result = .error e) := by
  refine ⟨retryGo_attempts_le op 0 maxRetries, ?_, ?_, ?_, ?_⟩
  · have h := retryGo_delays op 0 maxRetries
    simpa [Nat.zero_add] using h
  · intro i hi
    have h := retryGo_retryable op 0 maxRetries i hi
    simpa [Nat.zero_add] using h
  · intro e he hr
    cases maxRetries with
    | zero =>
      show retryGo op 0 0 = _
      simp [retryGo, he]
    | succ n =>
      show retryGo op 0 (n + 1) = _
      simp [retryGo, he, hr]
  · intro hall
    have h := retryGo_exhaust op 0 maxRetries (fun i hi => by
      simpa [Nat.zero_add] using hall i hi)
    simpa [Nat.zero_add] using h

/-- Witness for C9: a non-retryable validation failure is rethrown
unchanged after one invocation and no delays. -/
theorem executeWithRetryContract_witness :
    executeWithRetry (fun _ => (.error ⟨none, "validation failed", none⟩ : Except JsError Nat)) 2
      = ⟨.error ⟨none, "validation failed", none⟩, 1, []⟩ :=
  (executeWithRetryContract (fun _ => (.error ⟨none, "validation failed", none⟩ :
    Except JsError Nat)) 2).2.2.2.1 ⟨none, "validation failed", none⟩ rfl (by decide)

-- ## Document processing orchestrator (`processDocumentAsync`,
-- `src/app/api/materials/route.ts`)

/-- Document processing status (`processingStatus`). -/
inductive PStatus
  | PENDING
  | PROCESSING
  | READY
  | ERROR
deriving DecidableEq, Repr

/-- The result of the extraction stage (`processDocument`). -/
structure ProcessedDoc where
  text : String
  pageCount : Nat
deriving DecidableEq, Repr

/-- The three summary detail levels of `generateSummary`. -/
inductive SumLevel
  | brief
  | standard
  | detailed
deriving DecidableEq, Repr

/-- A generated practice question (one `generatePracticeQuestions` item). -/
structure PracticeQuestion where
  question : String
  answer : String
deriving DecidableEq, Repr

/-- A concept as returned by `extractKeyConcepts`. -/
structure RawConcept where
  term : String
  definition : String
  category : Option String
deriving DecidableEq, Repr

/-- ASCII upper-casing of one character (`String.prototype.toUpperCase` on
the ASCII range). -/
def jsUpperChar (c : Char) : Char :=
  if 'a' ≤ c ∧ c ≤ 'z' then Char.ofNat (c.toNat - 32) else c

/-- `normalizeConceptCategory`: a falsy category value gives `OTHER`;
otherwise the upper-cased value when it is one of the `ConceptCategory`
enumeration values, else `OTHER`. The enumeration itself is generated
Prisma client code not under src, so its value set is a parameter. -/
def normalizeConceptCategory (values : List String) (v : Option String) : String :=
  match v with
  | none => "OTHER"
  | some s =>
    if s = "" then "OTHER"
    else
      let u := String.mk (s.data.map jsUpperChar)
      if u ∈ values then u else "OTHER"

/-- Outcomes of every external call `processDocumentAsync` makes, indexed
by chapter position `i` (and concept position `j`) where a call runs once
per chapter or concept: extraction, the page-count update, the two clears,
the LLM calls, the chapter upsert, the concept creates, the chunk/embed/
index stage (`chunkText` + `upsertDocumentChunks`), the whole-document
summary, and the two terminal status updates. -/
structure PipeEnv where
  extract : Except JsError ProcessedDoc
  updateMeta : Except JsError Unit
  deleteChapters : Except JsError Unit
  deleteConcepts : Except JsError Unit
  genSummary : Nat → SumLevel → Except JsError String
  genQuestions : Nat → Except JsError (List PracticeQuestion)
  upsertChapter : Nat → Except JsError Unit
  extractConcepts : Nat → Except JsError (List RawConcept)
  createConcept : Nat → Nat → Except JsError Unit
  chunkStage : Except JsError Unit
  genWholeSummary : Except JsError String
  updateReady : Except JsError Unit
  updateError : Except JsError Unit
  categoryValues : List String

/-- A chapter row as saved by `chapter.upsert`. -/
structure SavedChapter where
  number : Nat
  title : String
  pageStart : Nat
  pageEnd : Nat
  summaryBrief : String
  summaryStandard : String
  summaryDetailed : String
  practiceQuestions : List PracticeQuestion
deriving DecidableEq, Repr

/-- A concept row as saved by `concept.create`. -/
structure SavedConcept where
  chapterNumber : Nat
  term : String
  definition : String
  category : String
deriving DecidableEq, Repr

/-- The persisted state the pipeline mutates: the material's status and
page count, the saved chapter and concept rows, whether the chunk/embed/
index stage committed, and the whole-document summary. -/
structure PipeState where
  status : PStatus
  pageCount : Option Nat
  savedChapters : List SavedChapter
  savedConcepts : List SavedConcept
  chunksUpserted : Bool
  wholeSummary : Option String
deriving DecidableEq, Repr

/-- Whether an `Except` is a success. -/
def exceptOk (x : Except JsError α) : Bool :=
  match x with
  | .ok _ => true
  | .error _ => false

/-- The fallback placeholder stored when summary generation fails. -/
def fallbackSummary : String :=
  "Summary generation skipped due to API limits"

/-- The summary sub-step for chapter `i`: the three variants are assigned
sequentially inside one `try` initialized to the fallback; a failure leaves
the failing variant and the ones not yet attempted at the fallback, while
variants already assigned keep their generated values. -/
def summariesFor (env : PipeEnv) (i : Nat) : String × String × String :=
  match env.genSummary i .brief with
  | .error _ => (fallbackSummary, fallbackSummary, fallbackSummary)
  | .ok b =>
    match env.genSummary i .standard with
    | .error _ => (b, fallbackSummary, fallbackSummary)
    | .ok s =>
      match env.genSummary i .detailed with
      | .error _ => (b, s, fallbackSummary)
      | .ok d => (b, s, d)

/-- The practice-question sub-step for chapter `i`: the empty list on
failure. -/
def questionsFor (env : PipeEnv) (i : Nat) : List PracticeQuestion :=
  match env.genQuestions i with
  | .error _ => []
  | .ok qs => qs

/-- The chapter row saved for chapter `i` (`pageStart`/`pageEnd` are the
index-based estimates `Math.floor(startIndex / 2000)`). -/
def savedChapterOf (env : PipeEnv) (i : Nat) (ch : Chapter) : SavedChapter :=
  ⟨ch.number, ch.title, ch.startIndex / 2000, ch.endIndex / 2000,
    (summariesFor env i).1, (summariesFor env i).2.1, (summariesFor env i).2.2,
    questionsFor env i⟩

/-- The `concept.create` loop for chapter `i`: rows created before the
first failing create persist; the failure is caught by the concept
sub-step's try and aborts only the remaining creates. -/
def createdConcepts (env : PipeEnv) (i chNum : Nat) : Nat → List RawConcept → List SavedConcept
  | _, [] => []
  | j, c :: rest =>
    match env.createConcept i j with
    | .error _ => []
    | .ok _ =>
      ⟨chNum, c.term, c.definition, normalizeConceptCategory env.categoryValues c.category⟩
        :: createdConcepts env i chNum (j + 1) rest

/-- The concept sub-step for chapter `i`: no rows when `extractKeyConcepts`
fails. -/
def conceptsSavedFor (env : PipeEnv) (i chNum : Nat) : List SavedConcept :=
  match env.extractConcepts i with
  | .error _ => []
  | .ok cs => createdConcepts env i chNum 0 cs

/-- The loop body of Step 3 for chapter `i`: summaries and questions are
computed with their local fallbacks, then the chapter row is saved — an
error of the (unwrapped) `chapter.upsert` propagates to the outer catch
with the state so far — and then the concept sub-step runs with its own
catch. -/
def processOneChapter (env : PipeEnv) (i : Nat) (ch : Chapter) (st : PipeState) :
    Except (JsError × PipeState) PipeState :=
  match env.upsertChapter i with
  | .error e => .error (e, st)
  | .ok _ =>
    .ok { st with
      savedChapters := st.savedChapters ++ [savedChapterOf env i ch],
      savedConcepts := st.savedConcepts ++ conceptsSavedFor env i ch.number }

/-- The sequential chapter loop of Step 3. -/
def processChapters (env : PipeEnv) : Nat → List Chapter → PipeState →
    Except (JsError × PipeState) PipeState
  | _, [], st => .ok st
  | i, ch :: rest, st =>
    match processOneChapter env i ch st with
    | .error es => .error es
    | .ok st2 => processChapters env (i + 1) rest st2

/-- The state when processing starts: the upload handler has set the
material to PROCESSING. -/
def initPipeState : PipeState :=
  ⟨.PROCESSING, none, [], [], false, none⟩

/-- The state after the page-count update of Step 1. -/
def pipeStateAfterMeta (doc : ProcessedDoc) : PipeState :=
  { initPipeState with pageCount := some doc.pageCount }

/-- The `try` block of `processDocumentAsync`: extraction, the page-count
update, chapter detection, the two clears, the chapter loop, the
chunk/embed/index stage (failure caught and ignored), the whole-document
summary (failure leaves null), and the final update to READY (which also
persists the whole summary). An error carries the state reached so far to
the catch block. -/
def pipelineBody (env : PipeEnv) : Except (JsError × PipeState) PipeState :=
  match env.extract with
  | .error e => .error (e, initPipeState)
  | .ok doc =>
    match env.updateMeta with
    | .error e => .error (e, initPipeState)
    | .ok _ =>
      match env.deleteChapters with
      | .error e => .error (e, pipeStateAfterMeta doc)
      | .ok _ =>
        match env.deleteConcepts with
        | .error e => .error (e, pipeStateAfterMeta doc)
        | .ok _ =>
          match processChapters env 0 (detectChapters doc.text) (pipeStateAfterMeta doc) with
          | .error es => .error es
          | .ok st2 =>
            let st3 :=
              match env.chunkStage with
              | .ok _ => { st2 with chunksUpserted := true }
              | .error _ => st2
            let ws :=
              match env.genWholeSummary with
              | .ok s => some s
              | .error _ => none
            match env.updateReady with
            | .error e => .error (e, st3)
            | .ok _ => .ok { st3 with status := .READY, wholeSummary := ws }

/-- `processDocumentAsync`: run the try block; on any escaped error the
catch block updates the status to ERROR (and when that update itself
fails, the rejection is only logged and the material keeps its previous
status). -/
def runPipeline (env : PipeEnv) : PipeState :=
  match pipelineBody env with
  | .ok st => st
  | .error (_, st) =>
    match env.updateError with
    | .ok _ => { st with status := .ERROR }
    | .error _ => st

/-- The calls of `processDocumentAsync` that run outside every inner
try/catch: extraction, the page-count update, the two clears, each
chapter upsert, and the final status update. These are exactly the steps
whose failure escapes to the outer catch. -/
def mandatorySucceeds (env : PipeEnv) : Prop :=
  ∃ doc, env.extract = .ok doc
    ∧ exceptOk env.updateMeta = true
    ∧ exceptOk env.deleteChapters = true
    ∧ exceptOk env.deleteConcepts = true
    ∧ (∀ i, i < (detectChapters doc.text).length → exceptOk (env.upsertChapter i) = true)
    ∧ exceptOk env.updateReady = true

theorem processOneChapter_ok (env : PipeEnv) (i : Nat) (ch : Chapter) (st : PipeState)
    (h : exceptOk (env.upsertChapter i) = true) :
    processOneChapter env i ch st = .ok
      { st with
        savedChapters := st.savedChapters ++ [savedChapterOf env i ch],
        savedConcepts := st.savedConcepts ++ conceptsSavedFor env i ch.number } := by
  cases hu : env.upsertChapter i with
  | error e => rw [hu] at h; simp [exceptOk] at h
  | ok u => simp [processOneChapter, hu]

theorem processOneChapter_status (env : PipeEnv) (i : Nat) (ch : Chapter) (st : PipeState) :
    (∀ st2, processOneChapter env i ch st = .ok st2 → st2.status = st.status)
    ∧ (∀ e st2, processOneChapter env i ch st = .error (e, st2) → st2.status = st.status) := by
  cases hu : env.upsertChapter i with
  | error e0 =>
    constructor
    · intro st2 h2
      simp [processOneChapter, hu] at h2
    · intro e st2 h2
      simp only [processOneChapter, hu, Except.error.injEq, Prod.mk.injEq] at h2
      rw [← h2.2]
  | ok u =>
    constructor
    · intro st2 h2
      simp only [processOneChapter, hu, Except.ok.injEq] at h2
      rw [← h2]
    · intro e st2 h2
      simp [processOneChapter, hu] at h2

theorem processChapters_status (env : PipeEnv) (chs : List Chapter) :
    ∀ (i : Nat) (st : PipeState),
      (∀ st2, processChapters env i chs st = .ok st2 → st2.status = st.status)
      ∧ (∀ e st2, processChapters env i chs st = .error (e, st2) → st2.status = st.status) := by
  induction chs with
  | nil =>
    intro i st
    constructor
    · intro st2 h2
      simp only [processChapters, Except.ok.injEq] at h2
      rw [← h2]
    · intro e st2 h2
      simp [processChapters] at h2
  | cons ch rest ih =>
    intro i st
    cases h1 : processOneChapter env i ch st with
    | error es =>
      obtain ⟨e0, st0⟩ := es
      constructor
      · intro st2 h2
        simp [processChapters, h1] at h2
      · intro e st2 h2
        simp only [processChapters, h1, Except.error.injEq, Prod.mk.injEq] at h2
        rw [← h2.2]
        exact (processOneChapter_status env i ch st).2 e0 st0 h1
    | ok stm =>
      have hm : stm.status = st.status :=
        (processOneChapter_status env i ch st).1 stm h1
      constructor
      · intro st2 h2
        simp only [processChapters, h1] at h2
        rw [(ih (i + 1) stm).1 st2 h2]
        exact hm
      · intro e st2 h2
        simp only [processChapters, h1] at h2
        rw [(ih (i + 1) stm).2 e st2 h2]
        exact hm

theorem processChapters_ok_iff (env : PipeEnv) (chs : List Chapter) :
    ∀ (i : Nat) (st : PipeState),
      (∃ st2, processChapters env i chs st = .ok st2)
        ↔ ∀ k, k < chs.length → exceptOk (env.upsertChapter (i + k)) = true := by
  induction chs with
  | nil =>
    intro i st
    constructor
    · intro _ k hk
      simp at hk
    · intro _
      exact ⟨st, rfl⟩
  | cons ch rest ih =>
    intro i st
    cases hu : env.upsertChapter i with
    | error e0 =>
      constructor
      · rintro ⟨st2, h2⟩
        simp [processChapters, processOneChapter, hu] at h2
      · intro hall
        have h0 := hall 0 (by simp)
        rw [Nat.add_zero, hu] at h0
        simp [exceptOk] at h0
    | ok u =>
      have hone := processOneChapter_ok env i ch st (by simp [exceptOk, hu])
      constructor
      · rintro ⟨st2, h2⟩
        simp only [processChapters, hone] at h2
        intro k hk
        cases k with
        | zero => simp [exceptOk, hu]
        | succ j =>
          have := (ih (i + 1) _).mp ⟨st2, h2⟩ j (by simpa using hk)
          rw [show i + (j + 1) = i + 1 + j by omega]
          exact this
      · intro hall
        have hrest := (ih (i + 1)
          { st with
            savedChapters := st.savedChapters ++ [savedChapterOf env i ch],
            savedConcepts := st.savedConcepts ++ conceptsSavedFor env i ch.number }).mpr
          (fun j hj => by
            have := hall (j + 1) (by simpa using hj)
            rw [show i + (j + 1) = i + 1 + j by omega] at this
            exact this)
        rcases hrest with ⟨st2, h2⟩
        refine ⟨st2, ?_⟩
        simp only [processChapters, hone]
        exact h2

theorem pipelineBody_ok_spec (env : PipeEnv) (st : PipeState)
    (hst : pipelineBody env = .ok st) :
    mandatorySucceeds env ∧ st.status = .READY := by
  cases hx : env.extract with
  | error e => simp [pipelineBody, hx] at hst
  | ok doc =>
    cases hm : env.updateMeta with
    | error e => simp [pipelineBody, hx, hm] at hst
    | ok u1 =>
      cases hd1 : env.deleteChapters with
      | error e => simp [pipelineBody, hx, hm, hd1] at hst
      | ok u2 =>
        cases hd2 : env.deleteConcepts with
        | error e => simp [pipelineBody, hx, hm, hd1, hd2] at hst
        | ok u3 =>
          cases hpc : processChapters env 0 (detectChapters doc.text) (pipeStateAfterMeta doc) with
          | error es => simp [pipelineBody, hx, hm, hd1, hd2, hpc] at hst
          | ok st2 =>
            cases hur : env.updateReady with
            | error e => simp [pipelineBody, hx, hm, hd1, hd2, hpc, hur] at hst
            | ok u4 =>
              constructor
              · refine ⟨doc, hx, by simp [exceptOk, hm], by simp [exceptOk, hd1],
                  by simp [exceptOk, hd2], ?_, by simp [exceptOk, hur]⟩
                have h := (processChapters_ok_iff env (detectChapters doc.text) 0
                  (pipeStateAfterMeta doc)).mp ⟨st2, hpc⟩
                intro i hi
                simpa using h i hi
              · simp only [pipelineBody, hx, hm, hd1, hd2, hpc, hur, Except.ok.injEq] at hst
                rw [← hst]

theorem pipelineBody_err_spec (env : PipeEnv) (e : JsError) (st : PipeState)
    (hst : pipelineBody env = .error (e, st)) :
    st.status = .PROCESSING := by
  cases hx : env.extract with
  | error e0 =>
    simp only [pipelineBody, hx, Except.error.injEq, Prod.mk.injEq] at hst
    rw [← hst.2]
    rfl
  | ok doc =>
    cases hm : env.updateMeta with
    | error e0 =>
      simp only [pipelineBody, hx, hm, Except.error.injEq, Prod.mk.injEq] at hst
      rw [← hst.2]
      rfl
    | ok u1 =>
      cases hd1 : env.deleteChapters with
      | error e0 =>
        simp only [pipelineBody, hx, hm, hd1, Except.error.injEq, Prod.mk.injEq] at hst
        rw [← hst.2]
        rfl
      | ok u2 =>
        cases hd2 : env.deleteConcepts with
        | error e0 =>
          simp only [pipelineBody, hx, hm, hd1, hd2, Except.error.injEq, Prod.mk.injEq] at hst
          rw [← hst.2]
          rfl
        | ok u3 =>
          cases hpc : processChapters env 0 (detectChapters doc.text) (pipeStateAfterMeta doc) with
          | error es =>
            obtain ⟨e1, st1⟩ := es
            simp only [pipelineBody, hx, hm, hd1, hd2, hpc, Except.error.injEq,
              Prod.mk.injEq] at hst
            rw [← hst.2]
            exact (processChapters_status env (detectChapters doc.text) 0
              (pipeStateAfterMeta doc)).2 e1 st1 hpc
          | ok st2 =>
            have hs2 : st2.status = .PROCESSING :=
              (processChapters_status env (detectChapters doc.text) 0
                (pipeStateAfterMeta doc)).1 st2 hpc
            cases hur : env.updateReady with
            | error e0 =>
              simp only [pipelineBody, hx, hm, hd1, hd2, hpc, hur, Except.error.injEq,
                Prod.mk.injEq] at hst
              rw [← hst.2]
              cases hc : env.chunkStage <;> simp [hc, hs2]
            | ok u4 =>
              simp [pipelineBody, hx, hm, hd1, hd2, hpc, hur] at hst

theorem pipelineBody_of_mandatory (env : PipeEnv) (h : mandatorySucceeds env) :
    ∃ st, pipelineBody env = .ok st := by
  rcases h with ⟨doc, hx, hm, hd1, hd2, hch, hur⟩
  cases hm2 : env.updateMeta with
  | error e => rw [hm2] at hm; simp [exceptOk] at hm
  | ok u1 =>
    cases hd12 : env.deleteChapters with
    | error e => rw [hd12] at hd1; simp [exceptOk] at hd1
    | ok u2 =>
      cases hd22 : env.deleteConcepts with
      | error e => rw [hd22] at hd2; simp [exceptOk] at hd2
      | ok u3 =>
        cases hur2 : env.updateReady with
        | error e => rw [hur2] at hur; simp [exceptOk] at hur
        | ok u4 =>
          rcases (processChapters_ok_iff env (detectChapters doc.text) 0
            (pipeStateAfterMeta doc)).mpr (fun k hk => by simpa using hch k hk)
            with ⟨st2, hpc⟩
          cases hc : env.chunkStage with
          | ok uc =>
            cases hw : env.genWholeSummary with
            | ok s =>
              refine ⟨{ st2 with chunksUpserted := true, status := .READY, wholeSummary := some s }, ?_⟩
              simp only [pipelineBody, hx, hm2, hd12, hd22, hpc, hur2, hc, hw]
            | error ew =>
              refine ⟨{ st2 with chunksUpserted := true, status := .READY, wholeSummary := none }, ?_⟩
              simp only [pipelineBody, hx, hm2, hd12, hd22, hpc, hur2, hc, hw]
          | error ec =>
            cases hw : env.genWholeSummary with
            | ok s =>
              refine ⟨{ st2 with status := .READY, wholeSummary := some s }, ?_⟩
              simp only [pipelineBody, hx, hm2, hd12, hd22, hpc, hur2, hc, hw]
            | error ew =>
              refine ⟨{ st2 with status := .READY, wholeSummary := none }, ?_⟩
              simp only [pipelineBody, hx, hm2, hd12, hd22, hpc, hur2, hc, hw]

/-- C1 (amended): the document ends READY exactly when every call outside
the inner try/catch blocks succeeds — stage-1 extraction, the page-count
update, the two clears, every per-chapter `chapter.upsert`, and the final
status update — regardless of failures of the enrichment sub-steps, the
chunk/embed/index stage or the whole-document summary (all caught locally);
it ends ERROR exactly when one of those unwrapped calls fails and the
catch's own ERROR update succeeds (staying PROCESSING when even that update
fails). In particular ERROR is not reserved to stage-1 failures: an
unwrapped database write can cause it too. -/
theorem pipelineStatusCharacterization (env : PipeEnv) :
    ((runPipeline env).status = .READY ↔ mandatorySucceeds env)
    ∧ ((runPipeline env).status = .ERROR
        ↔ (¬ mandatorySucceeds env) ∧ exceptOk env.updateError = true)
    ∧ ((runPipeline env).status = .PROCESSING
        ↔ (¬ mandatorySucceeds env) ∧ exceptOk env.updateError = false) := by
  cases hbody : pipelineBody env with
  | ok st =>
    have hspec := pipelineBody_ok_spec env st hbody
    have hrun : runPipeline env = st := by
      simp [runPipeline, hbody]
    rw [hrun, hspec.2]
    refine ⟨⟨fun _ => hspec.1, fun _ => rfl⟩, ?_, ?_⟩
    · constructor
      · intro h
        exact absurd h (by simp)
      · intro h
        exact absurd hspec.1 h.1
    · constructor
      · intro h
        exact absurd h (by simp)
      · intro h
        exact absurd hspec.1 h.1
  | error es =>
    obtain ⟨e, st⟩ := es
    have hst : st.status = .PROCESSING := pipelineBody_err_spec env e st hbody
    have hnm : ¬ mandatorySucceeds env := by
      intro hm
      rcases pipelineBody_of_mandatory env hm with ⟨st2, h2⟩
      rw [hbody] at h2
      exact absurd h2 (by simp)
    cases hue : env.updateError with
    | ok u =>
      have hrun : runPipeline env = { st with status := .ERROR } := by
        simp [runPipeline, hbody, hue]
      rw [hrun]
      refine ⟨?_, ?_, ?_⟩
      · constructor
        · intro h
          exact absurd h (by simp)
        · intro h
          exact absurd h hnm
      · exact ⟨fun _ => ⟨hnm, by simp [exceptOk, hue]⟩, fun _ => rfl⟩
      · constructor
        · intro h
          exact absurd h (by simp)
        · intro h
          simp [exceptOk, hue] at h
    | error eu =>
      have hrun : runPipeline env = st := by
        simp [runPipeline, hbody, hue]
      rw [hrun, hst]
      refine ⟨?_, ?_, ?_⟩
      · constructor
        · intro h
          exact absurd h (by simp)
        · intro h
          exact absurd h hnm
      · constructor
        · intro h
          exact absurd h (by simp)
        · intro h
          simp [exceptOk, hue] at h
      · exact ⟨fun _ => ⟨hnm, by simp [exceptOk, hue]⟩, fun _ => rfl⟩

/-- An environment in which every external call succeeds, processing the
five-character text `hello` (one synthetic chapter). -/
def envAllOk : PipeEnv :=
  ⟨.ok ⟨"hello", 1⟩, .ok (), .ok (), .ok (),
    fun _ _ => .ok "a summary", fun _ => .ok [⟨"q", "a"⟩], fun _ => .ok (),
    fun _ => .ok [⟨"term", "def", some "other"⟩], fun _ _ => .ok (),
    .ok (), .ok "whole summary", .ok (), .ok (), ["OTHER"]⟩

/-- Witness for C1's amended theorem: with every call succeeding, the
document ends READY. -/
theorem pipelineStatusCharacterization_witness :
    (runPipeline envAllOk).status = .READY :=
  (pipelineStatusCharacterization envAllOk).1.mpr
    ⟨⟨"hello", 1⟩, rfl, rfl, rfl, rfl, fun i hi => rfl, rfl⟩

/-- An environment in which stage-1 extraction succeeds but the unwrapped
`chapter.upsert` database write fails; the catch's ERROR update succeeds. -/
def envChapterSaveFails : PipeEnv :=
  ⟨.ok ⟨"hello", 1⟩, .ok (), .ok (), .ok (),
    fun _ _ => .ok "a summary", fun _ => .ok [⟨"q", "a"⟩],
    fun _ => .error ⟨none, "database connection lost", none⟩,
    fun _ => .ok [], fun _ _ => .ok (),
    .ok (), .ok "whole summary", .ok (), .ok (), ["OTHER"]⟩

/-- C1 counterexample: stage-1 extraction succeeds, yet the document ends
ERROR because the unwrapped `chapter.upsert` throws into the outer catch —
so ERROR is not reached only on stage-1 extraction failure, and READY is
not reached whenever extraction succeeds. -/
theorem chapterSaveFailureSetsError :
    (runPipeline envChapterSaveFails).status = .ERROR
    ∧ exceptOk envChapterSaveFails.extract = true := by
  constructor
  · rfl
  · rfl

/-- C4 (amended): for every chapter processed by the orchestrator whose
database save succeeds, the chapter row is saved and processing continues
with the remaining chapters; when summary generation fails, the failing
variant and the ones not yet attempted are stored with the fallback
placeholder — all three exactly when the first call fails — while variants
generated before the failure keep their generated values; when
practice-question generation fails the questions are stored as the empty
list; and when concept extraction fails no concepts are stored for the
chapter. -/
theorem chapterEnrichmentFallbacks (env : PipeEnv) (i : Nat) (ch : Chapter) (st : PipeState)
    (h : exceptOk (env.upsertChapter i) = true) :
    processOneChapter env i ch st = .ok
      { st with
        savedChapters := st.savedChapters ++ [savedChapterOf env i ch],
        savedConcepts := st.savedConcepts ++ conceptsSavedFor env i ch.number }
    ∧ (∀ rest, processChapters env i (ch :: rest) st
        = processChapters env (i + 1) rest
            { st with
              savedChapters := st.savedChapters ++ [savedChapterOf env i ch],
              savedConcepts := st.savedConcepts ++ conceptsSavedFor env i ch.number })
    ∧ (exceptOk (env.genSummary i .brief) = false →
        summariesFor env i = (fallbackSummary, fallbackSummary, fallbackSummary))
    ∧ (∀ b, env.genSummary i .brief = .ok b → exceptOk (env.genSummary i .standard) = false →
        summariesFor env i = (b, fallbackSummary, fallbackSummary))
    ∧ (∀ b s, env.genSummary i .brief = .ok b → env.genSummary i .standard = .ok s →
        exceptOk (env.genSummary i .detailed) = false →
        summariesFor env i = (b, s, fallbackSummary))
    ∧ (exceptOk (env.genQuestions i) = false →
        (savedChapterOf env i ch).practiceQuestions = [])
    ∧ (exceptOk (env.extractConcepts i) = false →
        conceptsSavedFor env i ch.number = []) := by
  have hone := processOneChapter_ok env i ch st h
  refine ⟨hone, ?_, ?_, ?_, ?_, ?_, ?_⟩
  · intro rest
    simp only [processChapters, hone]
  · intro hb
    cases hb2 : env.genSummary i .brief with
    | ok b => rw [hb2] at hb; simp [exceptOk] at hb
    | error e => simp [summariesFor, hb2]
  · intro b hb hs
    cases hs2 : env.genSummary i .standard with
    | ok v => rw [hs2] at hs; simp [exceptOk] at hs
    | error e => simp [summariesFor, hb, hs2]
  · intro b s hb hs hd
    cases hd2 : env.genSummary i .detailed with
    | ok v => rw [hd2] at hd; simp [exceptOk] at hd
    | error e => simp [summariesFor, hb, hs, hd2]
  · intro hq
    cases hq2 : env.genQuestions i with
    | ok qs => rw [hq2] at hq; simp [exceptOk] at hq
    | error e => simp [savedChapterOf, questionsFor, hq2]
  · intro hc
    cases hc2 : env.extractConcepts i with
    | ok cs => rw [hc2] at hc; simp [exceptOk] at hc
    | error e => simp [conceptsSavedFor, hc2]

/-- An environment in which the brief summary generates, the standard
summary call fails (so the detailed call is never reached), questions and
concept extraction fail, and the chapter save succeeds. -/
def envPartialSummary : PipeEnv :=
  ⟨.ok ⟨"hello", 1⟩, .ok (), .ok (), .ok (),
    fun _ lvl =>
      match lvl with
      | .brief => .ok "REAL SUMMARY"
      | _ => .error ⟨none, "429 Too Many Requests", some 429⟩,
    fun _ => .error ⟨none, "429 Too Many Requests", some 429⟩, fun _ => .ok (),
    fun _ => .error ⟨none, "429 Too Many Requests", some 429⟩, fun _ _ => .ok (),
    .ok (), .ok "whole summary", .ok (), .ok (), ["OTHER"]⟩

/-- Witness for C4's amended theorem: in `envPartialSummary` the chapter is
saved with the generated brief summary, fallback standard and detailed
summaries, empty questions and no concepts, and the loop continues. -/
theorem chapterEnrichmentFallbacks_witness :
    processOneChapter envPartialSummary 0 ⟨1, "T", 0, 5⟩ initPipeState = .ok
      { initPipeState with
        savedChapters := [savedChapterOf envPartialSummary 0 ⟨1, "T", 0, 5⟩],
        savedConcepts := [] }
    ∧ summariesFor envPartialSummary 0 = ("REAL SUMMARY", fallbackSummary, fallbackSummary)
    ∧ (savedChapterOf envPartialSummary 0 ⟨1, "T", 0, 5⟩).practiceQuestions = []
    ∧ conceptsSavedFor envPartialSummary 0 1 = [] := by
  have h := chapterEnrichmentFallbacks envPartialSummary 0 ⟨1, "T", 0, 5⟩ initPipeState rfl
  refine ⟨h.1, ?_, h.2.2.2.2.2.1 rfl, h.2.2.2.2.2.2 rfl⟩
  exact h.2.2.2.1 "REAL SUMMARY" rfl rfl

/-- C4 counterexample: in the same run the summary sub-step fails (its
standard call throws), yet the stored brief summary is the generated text,
not the fallback placeholder — so a summary-generation failure does not
store all three variants with the fallback. -/
theorem partialSummaryKeepsGeneratedVariant :
    exceptOk (envPartialSummary.genSummary 0 .standard) = false
    ∧ (savedChapterOf envPartialSummary 0 ⟨1, "T", 0, 5⟩).summaryBrief = "REAL SUMMARY"
    ∧ "REAL SUMMARY" ≠ fallbackSummary := by
  refine ⟨rfl, rfl, ?_⟩
  decide

-- ## Chat route (`src/app/api/chat/route.ts`, `POST`)

/-- `isRateLimitError`: HTTP status 429, or a message containing `429` or
`Too Many Requests`. -/
def isRateLimitError (e : JsError) : Bool :=
  e.status = some 429 || jsIncludes e.message "429" || jsIncludes e.message "Too Many Requests"

/-- The material row the chat route loads (`material.findUnique`). -/
structure MaterialRec where
  processingStatus : PStatus
deriving DecidableEq, Repr

/-- The parsed chat request body (`materialId`, `question`); a missing
field is `none`. -/
structure ChatRequest where
  materialId : Option String
  question : Option String
deriving DecidableEq, Repr

/-- JavaScript falsiness of an optional string: absent or empty. -/
def jsFalsy (s : Option String) : Bool :=
  match s with
  | none => true
  | some st => st == ""

/-- Outcomes of the external calls the chat route makes: whether
`DATABASE_URL` is configured, the material lookup, and the
`searchRelevantChunks` and `answerQuestion` calls. -/
structure ChatEnv where
  dbConfigured : Bool
  material : Option MaterialRec
  searchResult : Except JsError (List SChunk)
  answerResult : Except JsError (String × List String)

/-- The JSON response of the chat route: HTTP status, the `error` field
(absent on success) and the `answer` field (present on success). -/
structure ChatResponse where
  status : Nat
  error : Option String
  answer : Option String
deriving DecidableEq, Repr

/-- Observable outcome of one chat `POST`: the response, whether
`searchRelevantChunks` was invoked, the context string passed to
`answerQuestion` (`none` when it was never called), and the search cache
after the request. The route never references the `searchCache` singleton,
so the model threads the cache state through unchanged. -/
structure ChatOutcome where
  response : ChatResponse
  searched : Bool
  contextArg : Option String
  cacheAfter : SearchCache SChunk
deriving Repr

/-- The context assembly: `[Page N] text` per chunk, joined by blank
lines (`join('\n\n')`); the empty list yields the empty string. -/
def contextOfChunks (chunks : List SChunk) : String :=
  String.intercalate "\n\n"
    (chunks.map (fun c => "[Page " ++ toString c.pageNumber ++ "] " ++ c.text))

/-- The chat `POST` handler: validation, the material lookup, the
PROCESSING gate, retrieval with its own catch (falling back to no chunks),
context assembly, and answer generation whose failure maps to 429 for
rate limits and 500 otherwise. -/
def chatPOST (env : ChatEnv) (req : ChatRequest) (cache : SearchCache SChunk) : ChatOutcome :=
  if env.dbConfigured = false then
    ⟨⟨503, some "Database not configured", none⟩, false, none, cache⟩
  else if (jsFalsy req.materialId || jsFalsy req.question) = true then
    ⟨⟨400, some "Missing required fields", none⟩, false, none, cache⟩
  else
    let question := req.question.getD ""
    if (jsTrimList question.data).length = 0 then
      ⟨⟨400, some "Question cannot be empty", none⟩, false, none, cache⟩
    else if question.data.length > 1000 then
      ⟨⟨400, some "Question is too long. Please keep it under 1000 characters.", none⟩,
        false, none, cache⟩
    else
      match env.material with
      | none => ⟨⟨404, some "Material not found", none⟩, false, none, cache⟩
      | some m =>
        if m.processingStatus = .PROCESSING then
          ⟨⟨400, some "Material is still being processed", none⟩, false, none, cache⟩
        else
          let relevantChunks :=
            match env.searchResult with
            | .ok l => l
            | .error _ => []
          let context := contextOfChunks relevantChunks
          match env.answerResult with
          | .ok a => ⟨⟨200, none, some a.1⟩, true, some context, cache⟩
          | .error e =>
            if isRateLimitError e then
              ⟨⟨429, some "Rate limit exceeded", none⟩, true, some context, cache⟩
            else
              ⟨⟨500, some "Failed to process question", none⟩, true, some context, cache⟩

/-- The normal form of a well-formed request that passes the PROCESSING
gate: retrieval happens, the context is assembled from the search result
(empty on failure), and the answer call decides the response. -/
theorem chatPOST_main (env : ChatEnv) (req : ChatRequest) (cache : SearchCache SChunk)
    (m : MaterialRec) (mid q : String)
    (hdb : env.dbConfigured = true)
    (hmid : req.materialId = some mid) (hmidne : mid ≠ "")
    (hq : req.question = some q) (hqne : q ≠ "")
    (hqtrim : (jsTrimList q.data).length ≠ 0)
    (hqlen : q.data.length ≤ 1000)
    (hmat : env.material = some m)
    (hnp : m.processingStatus ≠ .PROCESSING) :
    chatPOST env req cache =
      match env.answerResult with
      | .ok a =>
        ⟨⟨200, none, some a.1⟩, true,
          some (contextOfChunks
            (match env.searchResult with
            | .ok l => l
            | .error _ => [])), cache⟩
      | .error e =>
        if isRateLimitError e then
          ⟨⟨429, some "Rate limit exceeded", none⟩, true,
            some (contextOfChunks
              (match env.searchResult with
              | .ok l => l
              | .error _ => [])), cache⟩
        else
          ⟨⟨500, some "Failed to process question", none⟩, true,
            some (contextOfChunks
              (match env.searchResult with
              | .ok l => l
              | .error _ => [])), cache⟩ := by
  simp only [chatPOST, hdb, hmid, hq, hmat, Option.getD_some]
  rw [if_neg (by simp)]
  rw [if_neg (by simp [jsFalsy, hmidne, hqne])]
  rw [if_neg hqtrim]
  rw [if_neg (by omega)]
  rw [if_neg hnp]

/-- C10: for a well-formed chat request naming an existing material
(database configured, non-empty materialId and question, non-blank
question of at most 1000 characters), the request is rejected with 400
"Material is still being processed" exactly when the material's status is
PROCESSING; READY and ERROR materials both proceed to retrieval (the
vector search is invoked) and to answer generation, and when the search
throws or yields zero chunks the answer call receives the empty context
rather than the request failing. -/
theorem chatStatusGate (env : ChatEnv) (req : ChatRequest) (cache : SearchCache SChunk)
    (m : MaterialRec) (mid q : String)
    (hdb : env.dbConfigured = true)
    (hmid : req.materialId = some mid) (hmidne : mid ≠ "")
    (hq : req.question = some q) (hqne : q ≠ "")
    (hqtrim : (jsTrimList q.data).length ≠ 0)
    (hqlen : q.data.length ≤ 1000)
    (hmat : env.material = some m) :
    ((chatPOST env req cache).response
        = ⟨400, some "Material is still being processed", none⟩
      ↔ m.processingStatus = .PROCESSING)
    ∧ (m.processingStatus ≠ .PROCESSING →
        (chatPOST env req cache).searched = true
        ∧ (chatPOST env req cache).contextArg ≠ none
        ∧ ((env.searchResult = .ok [] ∨ ∃ e, env.searchResult = .error e) →
            (chatPOST env req cache).contextArg = some "")) := by
  by_cases hp : m.processingStatus = .PROCESSING
  · constructor
    · refine ⟨fun _ => hp, fun _ => ?_⟩
      simp only [chatPOST, hdb, hmid, hq, hmat, Option.getD_some]
      rw [if_neg (by simp)]
      rw [if_neg (by simp [jsFalsy, hmidne, hqne])]
      rw [if_neg hqtrim]
      rw [if_neg (by omega)]
      rw [if_pos hp]
    · intro hnp
      exact absurd hp hnp
  · have hmain := chatPOST_main env req cache m mid q hdb hmid hmidne hq hqne hqtrim hqlen
      hmat hp
    constructor
    · constructor
      · intro hresp
        exfalso
        rw [hmain] at hresp
        cases ha : env.answerResult with
        | ok a => rw [ha] at hresp; simp at hresp
        | error e =>
          rw [ha] at hresp
          dsimp only at hresp
          by_cases hrl : isRateLimitError e
          · rw [if_pos hrl] at hresp; simp at hresp
          · rw [if_neg hrl] at hresp; simp at hresp
      · intro h
        exact absurd h hp
    · intro _
      rw [hmain]
      have hctx : ((env.searchResult = .ok [] ∨ ∃ e, env.searchResult = .error e) →
          contextOfChunks
            (match env.searchResult with
            | .ok l => l
            | .error _ => []) = "") := by
        intro hsr
        rcases hsr with hsr | ⟨e, hsr⟩ <;> rw [hsr] <;> rfl
      cases ha : env.answerResult with
      | ok a =>
        exact ⟨rfl, by simp, fun hsr => by simp [hctx hsr]⟩
      | error e =>
        dsimp only
        by_cases hrl : isRateLimitError e
        · rw [if_pos hrl]
          exact ⟨rfl, by simp, fun hsr => by simp [hctx hsr]⟩
        · rw [if_neg hrl]
          exact ⟨rfl, by simp, fun hsr => by simp [hctx hsr]⟩

/-- A chat environment with a READY material, a search that finds nothing,
and a successful answer. -/
def envChatReady : ChatEnv :=
  ⟨true, some ⟨.READY⟩, .ok [], .ok ("an answer", [])⟩

/-- Witness for C10 at a concrete valid request against a READY material
whose search yields zero chunks: no PROCESSING rejection, the vector
search is invoked and the answer is generated with the empty context. -/
theorem chatStatusGate_witness :
    ¬ ((chatPOST envChatReady ⟨some "m", some "q"⟩ (SearchCache.empty 100 5)).response
        = ⟨400, some "Material is still being processed", none⟩)
    ∧ (chatPOST envChatReady ⟨some "m", some "q"⟩ (SearchCache.empty 100 5)).searched = true
    ∧ (chatPOST envChatReady ⟨some "m", some "q"⟩ (SearchCache.empty 100 5)).contextArg
        = some "" := by
  have h := chatStatusGate envChatReady ⟨some "m", some "q"⟩ (SearchCache.empty 100 5)
    ⟨.READY⟩ "m" "q" rfl rfl (by decide) rfl (by decide) (by decide) (by decide) rfl
  have h2 := h.2 (by decide)
  exact ⟨fun hr => by have := h.1.mp hr; simp at this, h2.1, h2.2.2 (Or.inl rfl)⟩

/-- C5 (amended): the answer path never consults or updates the Search
Cache. For a well-formed request that reaches retrieval, the vector search
is invoked regardless of the cache contents, the cache after the request
is exactly the cache before it, and the entire outcome is independent of
the cache state — `SearchCache.get` and `SearchCache.set` are never
called. -/
theorem chatIgnoresSearchCache (env : ChatEnv) (req : ChatRequest)
    (c1 c2 : SearchCache SChunk) (m : MaterialRec) (mid q : String)
    (hdb : env.dbConfigured = true)
    (hmid : req.materialId = some mid) (hmidne : mid ≠ "")
    (hq : req.question = some q) (hqne : q ≠ "")
    (hqtrim : (jsTrimList q.data).length ≠ 0)
    (hqlen : q.data.length ≤ 1000)
    (hmat : env.material = some m)
    (hnp : m.processingStatus ≠ .PROCESSING) :
    (chatPOST env req c1).cacheAfter = c1
    ∧ (chatPOST env req c1).searched = true
    ∧ (chatPOST env req c1).response = (chatPOST env req c2).response
    ∧ (chatPOST env req c1).contextArg = (chatPOST env req c2).contextArg := by
  have h1 := chatPOST_main env req c1 m mid q hdb hmid hmidne hq hqne hqtrim hqlen hmat hnp
  have h2 := chatPOST_main env req c2 m mid q hdb hmid hmidne hq hqne hqtrim hqlen hmat hnp
  rw [h1, h2]
  cases ha : env.answerResult with
  | ok a => exact ⟨rfl, rfl, rfl, rfl⟩
  | error e =>
    dsimp only
    by_cases hrl : isRateLimitError e
    · rw [if_pos hrl, if_pos hrl]
      exact ⟨rfl, rfl, rfl, rfl⟩
    · rw [if_neg hrl, if_neg hrl]
      exact ⟨rfl, rfl, rfl, rfl⟩

/-- A cache state holding a fresh entry for the request's
(query, materialId) pair. -/
def cacheWithFreshEntry : SearchCache SChunk :=
  ⟨[(getCacheKey "q" "m", ⟨[⟨"cached text", 1, 1⟩], 0⟩)], 100, 300000⟩

/-- Witness for C5's amended theorem at a concrete request whose cache even
holds a fresh matching entry. -/
theorem chatIgnoresSearchCache_witness :
    (chatPOST envChatReady ⟨some "m", some "q"⟩ cacheWithFreshEntry).cacheAfter
      = cacheWithFreshEntry
    ∧ (chatPOST envChatReady ⟨some "m", some "q"⟩ cacheWithFreshEntry).searched = true :=
  ⟨(chatIgnoresSearchCache envChatReady ⟨some "m", some "q"⟩ cacheWithFreshEntry
      (SearchCache.empty 100 5) ⟨.READY⟩ "m" "q" rfl rfl (by decide) rfl (by decide)
      (by decide) (by decide) rfl (by decide)).1,
    (chatIgnoresSearchCache envChatReady ⟨some "m", some "q"⟩ cacheWithFreshEntry
      (SearchCache.empty 100 5) ⟨.READY⟩ "m" "q" rfl rfl (by decide) rfl (by decide)
      (by decide) (by decide) rfl (by decide)).2.1⟩

/-- C5 counterexample: at request time the cache holds a fresh entry for
(documentId, query) — `SearchCache.get` would return it — yet the chat
route still queries the vector store and leaves the cache unchanged: the
cache is not consulted first and the vector store is queried anyway. -/
theorem cachedRequestStillQueriesVectorStore :
    ((cacheWithFreshEntry.get "q" "m" 1000).1 = some [⟨"cached text", 1, 1⟩])
    ∧ (chatPOST envChatReady ⟨some "m", some "q"⟩ cacheWithFreshEntry).searched = true
    ∧ (chatPOST envChatReady ⟨some "m", some "q"⟩ cacheWithFreshEntry).cacheAfter
        = cacheWithFreshEntry := by
  exact ⟨rfl, rfl, rfl⟩
